import Mathlib

/-!
# Verification of the hexi binary stream engine

A shallow embedding of the hexi serialization library
(`include/hexi/binary_stream.h`, `include/hexi/pmc/binary_stream_reader.h`,
`include/hexi/pmc/binary_stream_writer.h`,
`include/hexi/detail/intrusive_storage.h`), together with theorems checking
the natural-language specification against it.

Conventions of the embedding:
* bytes are `Nat` values (the streams never inspect byte values except for
  the null terminator and varint continuation bits);
* `std::size_t` arithmetic that can wrap is modelled with explicit
  `% 2 ^ 64` (`uadd` / `usub`); subtractions that are guarded by invariants
  making them non-negative are plain `Nat` subtraction;
* the buffer a stream borrows is abstracted by a record of operations
  (`BufOps`), mirroring the `buf_type` template parameter / the
  `buffer_read`/`buffer_write` virtual interfaces of the C++ code.  A flat
  buffer is a byte queue (`listBufOps`); the segmented buffer is a chain of
  `intrusive_storage` blocks (`segBufOps`);
* C++ exceptions are modelled by a `Bool` "thrown" component: a function
  whose C++ counterpart throws returns with the flag set, and the state
  mutations performed before the throw are kept (exactly what a caller
  observing the stream after catching would see).
-/

namespace Hexi

/-- The shared `stream_state` enumeration (`shared.h`).  The spec calls
`buff_limit_err` "buffer_underrun" and `read_limit_err`
"read_limit_exceeded". -/
inductive stream_state where
  | ok
  | read_limit_err
  | buff_limit_err
  | buff_write_err
  | invalid_stream
  | user_defined_err
deriving DecidableEq, Repr

/-- `2 ^ 64`, the modulus of `std::size_t` arithmetic. -/
def usize : Nat := 2 ^ 64

/-- `std::size_t` addition (wraps modulo `2 ^ 64`). -/
def uadd (a b : Nat) : Nat := (a + b) % usize

/-- `std::size_t` subtraction (wraps modulo `2 ^ 64`). -/
def usub (a b : Nat) : Nat := (a + usize - b % usize) % usize

theorem uadd_eq (a b : Nat) (h : a + b < usize) : uadd a b = a + b := by
  simp [uadd, Nat.mod_eq_of_lt h]

theorem usub_eq (a b : Nat) (hba : b ≤ a) (ha : a < usize) : usub a b = a - b := by
  have hb : b % usize = b := Nat.mod_eq_of_lt (lt_of_le_of_lt hba ha)
  have h1 : a + usize - b = usize + (a - b) := by omega
  have h2 : a - b < usize := by omega
  simp [usub, hb, h1, Nat.add_mod_left, Nat.mod_eq_of_lt h2]

/-- The little-endian byte encoding of `static_cast<uint32_t>(n)`, as
produced by `endian::native_to_little` on a four-byte value. -/
def le4 (n : Nat) : List Nat :=
  [n % 256, n / 256 % 256, n / 256 ^ 2 % 256, n / 256 ^ 3 % 256]

/-- Reassembling a `uint32_t` from its four little-endian bytes. -/
def fromLE4 (bs : List Nat) : Nat :=
  match bs with
  | [b0, b1, b2, b3] => b0 + b1 * 256 + b2 * 256 ^ 2 + b3 * 256 ^ 3
  | _ => 0

theorem le4_length (n : Nat) : (le4 n).length = 4 := rfl

theorem fromLE4_le4 (n : Nat) : fromLE4 (le4 n) = n % 2 ^ 32 := by
  simp only [le4, fromLE4]
  omega

theorem fromLE4_le4_of_lt (n : Nat) (h : n < 2 ^ 32) : fromLE4 (le4 n) = n := by
  rw [fromLE4_le4, Nat.mod_eq_of_lt h]

/-- The buffer `find_first_of` contract on a byte queue: offset of the
first occurrence of `v` counting from the read cursor, `none` ("npos")
when absent. -/
def find_first_of_list (v : Nat) : List Nat → Option Nat
  | [] => none
  | x :: xs => if x = v then some 0 else (find_first_of_list v xs).map (· + 1)

theorem find_first_of_list_of_not_mem (v : Nat) (l : List Nat) (h : v ∉ l) :
    find_first_of_list v l = none := by
  induction l with
  | nil => rfl
  | cons x xs ih =>
    simp only [List.mem_cons, not_or] at h
    have hx : ¬x = v := fun hx => h.1 hx.symm
    simp [find_first_of_list, hx, ih h.2]

theorem find_first_of_list_append (v : Nat) (pre post : List Nat) (h : v ∉ pre) :
    find_first_of_list v (pre ++ v :: post) = some pre.length := by
  induction pre with
  | nil => simp [find_first_of_list]
  | cons x xs ih =>
    simp only [List.mem_cons, not_or] at h
    have hx : ¬x = v := fun hx => h.1 hx.symm
    simp [find_first_of_list, hx, ih h.2]

/-- The operations a stream needs from its borrowed buffer: the `buf_type`
template parameter of `binary_stream` and the `buffer_read` /
`buffer_write` interfaces of the pmc streams (spec section 4.1).  `read`
returns the bytes moved out together with the remaining buffer. -/
structure BufOps (β : Type) where
  size : β → Nat
  read : β → Nat → List Nat × β
  skip : β → Nat → β
  find_first_of : β → Nat → Option Nat
  write : β → List Nat → β

/-- The flat buffer: a plain byte queue.  Writes append at the back, reads
drain from the front. -/
def listBufOps : BufOps (List Nat) where
  size := List.length
  read := fun b n => (b.take n, b.drop n)
  skip := fun b n => b.drop n
  find_first_of := fun b v => find_first_of_list v b
  write := fun b bs => b ++ bs

/-!
## `hexi::detail::intrusive_storage` (detail/intrusive_storage.h)

A fixed-capacity storage block.  `block_size` is the `N` template
parameter; `storage` models the `std::array<value_type, block_size>` as a
list of length `block_size`; the `prev`/`next` links of the intrusive node
are kept by the chain (`List`) that owns the blocks instead.  The offsets
are `std::size_t` values; all the subtractions below are guarded by the
block invariant in the theorems, where they agree with size_t
arithmetic.
-/

structure intrusive_storage (block_size : Nat) where
  read_offset : Nat := 0
  write_offset : Nat := 0
  storage : List Nat
deriving DecidableEq, Repr

namespace intrusive_storage

variable {block_size : Nat}

/-- `clear()`: reset both offsets, keep the stored bytes. -/
def clear (b : intrusive_storage block_size) : intrusive_storage block_size :=
  { b with read_offset := 0, write_offset := 0 }

/-- `write(source, length)`: copy `min(block_size - write_offset, length)`
bytes at the write offset and advance it.  The source pointer and length
are modelled jointly as a byte list.  Returns the updated block and the
number of bytes copied. -/
def write (b : intrusive_storage block_size) (source : List Nat) :
    intrusive_storage block_size × Nat :=
  let write_len := if block_size - b.write_offset > source.length then
    source.length else block_size - b.write_offset
  (⟨b.read_offset, b.write_offset + write_len,
    b.storage.take b.write_offset ++ source.take write_len ++
      b.storage.drop (b.write_offset + write_len)⟩, write_len)

/-- `copy(destination, length)` (non-advancing): copy
`min(block_size - read_offset, length)` bytes from the read offset.
Returns the bytes and the count. -/
def copy (b : intrusive_storage block_size) (length : Nat) : List Nat × Nat :=
  let read_len := if block_size - b.read_offset > length then
    length else block_size - b.read_offset
  ((b.storage.drop b.read_offset).take read_len, read_len)

/-- `read(destination, length, allow_optimise)`: `copy` then advance the
read offset; reset the block when it is drained and optimisation is
allowed. -/
def read (b : intrusive_storage block_size) (length : Nat)
    (allow_optimise : Bool := false) :
    intrusive_storage block_size × List Nat × Nat :=
  let r := copy b length
  let b' : intrusive_storage block_size :=
    { b with read_offset := b.read_offset + r.2 }
  if b'.read_offset = b'.write_offset ∧ allow_optimise then
    (b'.clear, r.1, r.2)
  else
    (b', r.1, r.2)

/-- `skip(length, allow_optimise)`: advance the read offset by
`min(block_size - read_offset, length)` without copying. -/
def skip (b : intrusive_storage block_size) (length : Nat)
    (allow_optimise : Bool := false) :
    intrusive_storage block_size × Nat :=
  let skip_len := if block_size - b.read_offset > length then
    length else block_size - b.read_offset
  let b' : intrusive_storage block_size :=
    { b with read_offset := b.read_offset + skip_len }
  if b'.read_offset = b'.write_offset ∧ allow_optimise then
    (b'.clear, skip_len)
  else
    (b', skip_len)

/-- `size()`: readable byte count `write_offset - read_offset`. -/
def size (b : intrusive_storage block_size) : Nat :=
  b.write_offset - b.read_offset

/-- `free()`: writable byte count `block_size - write_offset`. -/
def free (b : intrusive_storage block_size) : Nat :=
  block_size - b.write_offset

/-- The `buffer_seek` direction enumeration (shared.h). -/
inductive buffer_seek where
  | sk_absolute
  | sk_backward
  | sk_forward
deriving DecidableEq, Repr

/-- `write_seek(direction, offset)`.  The backward and forward cases use
size_t wraparound arithmetic, exactly as `write_offset -= offset` /
`write_offset += offset` do. -/
def write_seek (b : intrusive_storage block_size) (direction : buffer_seek)
    (offset : Nat) : intrusive_storage block_size :=
  match direction with
  | .sk_absolute => { b with write_offset := offset }
  | .sk_backward => { b with write_offset := usub b.write_offset offset }
  | .sk_forward => { b with write_offset := uadd b.write_offset offset }

/-- `advance_write(size)`: advance the write cursor by `min(free(), size)`. -/
def advance_write (b : intrusive_storage block_size) (sz : Nat) :
    intrusive_storage block_size × Nat :=
  let sz' := if b.free < sz then b.free else sz
  ({ b with write_offset := b.write_offset + sz' }, sz')

/-- The Storage Block invariant of spec section 3:
`0 ≤ read_offset ≤ write_offset ≤ N` (with the storage really holding `N`
bytes). -/
def wf (b : intrusive_storage block_size) : Prop :=
  b.read_offset ≤ b.write_offset ∧ b.write_offset ≤ block_size ∧
    b.storage.length = block_size

instance (b : intrusive_storage block_size) : Decidable b.wf := by
  unfold wf; infer_instance

/-- The readable bytes of a block: `size()` bytes starting at the read
offset. -/
def readable (b : intrusive_storage block_size) : List Nat :=
  (b.storage.drop b.read_offset).take b.size

theorem readable_length (b : intrusive_storage block_size) (h : b.wf) :
    b.readable.length = b.size := by
  obtain ⟨h1, h2, h3⟩ := h
  simp [readable, size, h3]
  omega

theorem wf_clear (b : intrusive_storage block_size) (h : b.wf) : b.clear.wf := by
  obtain ⟨h1, h2, h3⟩ := h
  exact ⟨Nat.le_refl 0, Nat.zero_le _, h3⟩

theorem write_wf (b : intrusive_storage block_size) (source : List Nat)
    (h : b.wf) : (b.write source).1.wf := by
  obtain ⟨h1, h2, h3⟩ := h
  unfold write wf
  simp only
  set wl := if block_size - b.write_offset > source.length then
    source.length else block_size - b.write_offset with hwl
  have hwl1 : wl ≤ block_size - b.write_offset := by
    rw [hwl]; split <;> omega
  have hwl2 : wl ≤ source.length := by
    rw [hwl]; split <;> omega
  refine ⟨by omega, by omega, ?_⟩
  rw [List.length_append, List.length_append, List.length_take,
    List.length_take, List.length_drop, h3]
  omega

theorem write_count (b : intrusive_storage block_size) (source : List Nat)
    (_h : b.wf) :
    (b.write source).2 = min (block_size - b.write_offset) source.length := by
  unfold write
  simp only
  split <;> omega

/-- Writing extends the readable region by exactly the copied bytes. -/
theorem write_readable (b : intrusive_storage block_size) (source : List Nat)
    (h : b.wf) :
    (b.write source).1.readable = b.readable ++ source.take (b.write source).2 := by
  obtain ⟨h1, h2, h3⟩ := h
  simp only [write, readable, size]
  set wl := if block_size - b.write_offset > source.length then
    source.length else block_size - b.write_offset with hwl
  have hwl1 : wl ≤ block_size - b.write_offset := by
    rw [hwl]; split <;> omega
  have hwl2 : wl ≤ source.length := by
    rw [hwl]; split <;> omega
  have hT : (b.storage.take b.write_offset).length = b.write_offset := by
    rw [List.length_take]; omega
  have hM : (source.take wl).length = wl := List.length_take_of_le hwl2
  rw [List.append_assoc,
    List.drop_append_of_le_length (by rw [hT]; exact h1)]
  have hTd : ((b.storage.take b.write_offset).drop b.read_offset).length =
      b.write_offset - b.read_offset := by
    rw [List.length_drop, hT]
  rw [List.take_append_eq_append_take,
    List.take_of_length_le (by rw [hTd]; omega), hTd]
  have hn : b.write_offset + wl - b.read_offset -
      (b.write_offset - b.read_offset) = wl := by omega
  rw [hn, List.take_append_eq_append_take,
    List.take_of_length_le (le_of_eq hM), hM, Nat.sub_self, List.take_zero,
    List.append_nil, List.drop_take]

/-- Characterization of an in-bounds `read` with optimisation disabled. -/
theorem read_eq (b : intrusive_storage block_size) (k : Nat) (h : b.wf)
    (hk : k ≤ b.size) :
    b.read k false = ({ b with read_offset := b.read_offset + k },
      b.readable.take k, k) := by
  obtain ⟨h1, h2, h3⟩ := h
  simp only [read, copy, size, readable] at hk ⊢
  have hrl : (if block_size - b.read_offset > k then k
      else block_size - b.read_offset) = k := by split <;> omega
  rw [hrl]
  simp [List.take_take, Nat.min_eq_left hk]

theorem read_wf (b : intrusive_storage block_size) (k : Nat) (h : b.wf)
    (hk : k ≤ b.size) : (b.read k false).1.wf := by
  rw [read_eq b k h hk]
  obtain ⟨h1, h2, h3⟩ := h
  simp only [size] at hk
  refine ⟨?_, ?_, ?_⟩
  · show b.read_offset + k ≤ b.write_offset
    omega
  · exact h2
  · exact h3

theorem read_readable (b : intrusive_storage block_size) (k : Nat) (h : b.wf)
    (hk : k ≤ b.size) : (b.read k false).1.readable = b.readable.drop k := by
  rw [read_eq b k h hk]
  obtain ⟨h1, h2, h3⟩ := h
  simp only [size] at hk
  show ((b.storage.drop (b.read_offset + k)).take
    (b.write_offset - (b.read_offset + k))) = _
  simp only [readable, size]
  rw [List.drop_take, List.drop_drop]
  have heq : b.write_offset - (b.read_offset + k) =
      b.write_offset - b.read_offset - k := by omega
  rw [heq]

theorem read_size (b : intrusive_storage block_size) (k : Nat) (h : b.wf)
    (hk : k ≤ b.size) : (b.read k false).1.size = b.size - k := by
  rw [read_eq b k h hk]
  show b.write_offset - (b.read_offset + k) = _
  simp only [size]
  omega

end intrusive_storage

/-!
## The segmented buffer

Modelled from the spec: the chained-block buffer class itself
(`dynamic_buffer`) is not among the available sources, only its Storage
Block is.  Per spec section 3 and 4.1 it is a linked chain of
`intrusive_storage` blocks: writes append to the tail, allocating a new
block when the tail is full; reads drain from the head, advancing to the
next block when the head is exhausted, and a drained head block is
unlinked.  The chain is the list of blocks, head first; each block-level
transfer uses the `intrusive_storage` operations embedded above.
-/

/-- A segmented buffer: the chain of storage blocks, head first. -/
abbrev SegBuf (block_size : Nat) : Type := List (intrusive_storage block_size)

namespace SegBuf

variable {block_size : Nat}

/-- All blocks of the chain satisfy the Storage Block invariant. -/
def wf : SegBuf block_size → Prop
  | [] => True
  | b :: rest => b.wf ∧ wf rest

def wfDec : (c : SegBuf block_size) → Decidable c.wf
  | [] => .isTrue trivial
  | _ :: rest => @instDecidableAnd _ _ _ (wfDec rest)

instance (c : SegBuf block_size) : Decidable c.wf := wfDec c

/-- The whole readable byte sequence of the chain, head block first. -/
def flatten : SegBuf block_size → List Nat
  | [] => []
  | b :: rest => b.readable ++ flatten rest

/-- `size()`: total readable bytes, summed over the chain. -/
def size : SegBuf block_size → Nat
  | [] => 0
  | b :: rest => b.size + size rest

theorem size_eq_flatten_length (c : SegBuf block_size) (h : c.wf) :
    c.size = c.flatten.length := by
  induction c with
  | nil => rfl
  | cons b rest ih =>
    obtain ⟨hb, hrest⟩ := h
    simp [size, flatten, intrusive_storage.readable_length b hb, ih hrest]

/-- Modelled from the spec: writing fills fresh blocks appended at the
tail, block by block.  `fuel` bounds the number of allocations; any
`fuel ≥ bs.length` allocates the same chain when `0 < block_size`. -/
def write_fresh (fuel : Nat) (bs : List Nat) : SegBuf block_size :=
  match fuel, bs with
  | 0, _ => []
  | _, [] => []
  | fuel + 1, bs =>
    let r := intrusive_storage.write ⟨0, 0, List.replicate block_size 0⟩ bs
    r.1 :: write_fresh fuel (bs.drop r.2)

/-- Modelled from the spec: `write` appends to the tail block, then fills
freshly allocated blocks with whatever is left over. -/
def write (bs : List Nat) : SegBuf block_size → SegBuf block_size
  | [] => write_fresh bs.length bs
  | [b] =>
    let r := b.write bs
    r.1 :: write_fresh (bs.drop r.2).length (bs.drop r.2)
  | b :: b' :: rest => b :: write bs (b' :: rest)

/-- Modelled from the spec: `read` drains the head block, unlinking it and
continuing into the next when the request crosses a block boundary. -/
def read (n : Nat) : SegBuf block_size → List Nat × SegBuf block_size
  | [] => ([], [])
  | b :: rest =>
    let k := min n b.size
    let r := b.read k false
    if n ≤ b.size then
      (r.2.1, r.1 :: rest)
    else
      let r' := read (n - k) rest
      (r.2.1 ++ r'.1, r'.2)

/-- Modelled from the spec: `skip` is `read` with the bytes discarded. -/
def skip (n : Nat) (c : SegBuf block_size) : SegBuf block_size :=
  (read n c).2

/-- Modelled from the spec: `find_first_of` scans the readable bytes from
the read cursor across the chain. -/
def seg_find_first_of (c : SegBuf block_size) (v : Nat) : Option Nat :=
  find_first_of_list v c.flatten

theorem write_fresh_spec (hN : 0 < block_size) :
    ∀ (fuel : Nat) (bs : List Nat), bs.length ≤ fuel →
      wf (write_fresh fuel bs : SegBuf block_size) ∧
        flatten (write_fresh fuel bs : SegBuf block_size) = bs := by
  intro fuel
  induction fuel with
  | zero =>
    intro bs hbs
    rw [Nat.le_zero, List.length_eq_zero] at hbs
    subst hbs
    exact ⟨trivial, rfl⟩
  | succ fuel ih =>
    intro bs hbs
    match bs with
    | [] => exact ⟨trivial, rfl⟩
    | x :: bs' =>
      have hfresh : (⟨0, 0, List.replicate block_size 0⟩ :
          intrusive_storage block_size).wf :=
        ⟨Nat.le_refl 0, Nat.zero_le _, List.length_replicate _ _⟩
      have hcnt := intrusive_storage.write_count
        (⟨0, 0, List.replicate block_size 0⟩ :
          intrusive_storage block_size) (x :: bs') hfresh
      have hwfb := intrusive_storage.write_wf
        (⟨0, 0, List.replicate block_size 0⟩ :
          intrusive_storage block_size) (x :: bs') hfresh
      have hrd := intrusive_storage.write_readable
        (⟨0, 0, List.replicate block_size 0⟩ :
          intrusive_storage block_size) (x :: bs') hfresh
      set r := intrusive_storage.write
        (⟨0, 0, List.replicate block_size 0⟩ :
          intrusive_storage block_size) (x :: bs') with hr
      have hpos : 1 ≤ r.2 := by
        rw [hcnt]
        show 1 ≤ min (block_size - 0) (x :: bs').length
        simp only [Nat.sub_zero, List.length_cons]
        omega
      have hrest : ((x :: bs').drop r.2).length ≤ fuel := by
        rw [List.length_drop]
        simp only [List.length_cons] at hbs ⊢
        omega
      obtain ⟨ihwf, ihflat⟩ := ih ((x :: bs').drop r.2) hrest
      have hstep : (write_fresh (fuel + 1) (x :: bs') : SegBuf block_size) =
          r.1 :: write_fresh fuel ((x :: bs').drop r.2) := rfl
      refine ⟨?_, ?_⟩
      · rw [hstep]
        exact ⟨hwfb, ihwf⟩
      · rw [hstep]
        show r.1.readable ++
          flatten (write_fresh fuel ((x :: bs').drop r.2) : SegBuf block_size) = _
        rw [ihflat, hrd]
        show (⟨0, 0, List.replicate block_size 0⟩ :
          intrusive_storage block_size).readable ++ (x :: bs').take r.2 ++
            (x :: bs').drop r.2 = x :: bs'
        have hread0 : (⟨0, 0, List.replicate block_size 0⟩ :
            intrusive_storage block_size).readable = [] := rfl
        rw [hread0, List.nil_append, List.take_append_drop]

theorem write_spec (hN : 0 < block_size) (bs : List Nat) :
    ∀ c : SegBuf block_size, wf c →
      wf (write bs c) ∧ flatten (write bs c) = flatten c ++ bs := by
  intro c
  induction c with
  | nil =>
    intro _
    obtain ⟨hwf, hflat⟩ := write_fresh_spec hN bs.length bs (Nat.le_refl _)
    refine ⟨hwf, ?_⟩
    rw [show write bs ([] : SegBuf block_size) =
      write_fresh bs.length bs from rfl, hflat]
    rfl
  | cons b rest ih =>
    intro hc
    obtain ⟨hb, hrest⟩ := hc
    match rest with
    | [] =>
      have hcnt := intrusive_storage.write_count b bs hb
      have hwfb := intrusive_storage.write_wf b bs hb
      have hrd := intrusive_storage.write_readable b bs hb
      set r := b.write bs with hr
      obtain ⟨ihwf, ihflat⟩ := write_fresh_spec hN (bs.drop r.2).length
        (bs.drop r.2) (Nat.le_refl _)
      have hstep : write bs ([b] : SegBuf block_size) =
          r.1 :: write_fresh (bs.drop r.2).length (bs.drop r.2) := rfl
      refine ⟨?_, ?_⟩
      · rw [hstep]
        exact ⟨hwfb, ihwf⟩
      · rw [hstep]
        show r.1.readable ++
          flatten (write_fresh (bs.drop r.2).length (bs.drop r.2) :
            SegBuf block_size) = _
        rw [ihflat, hrd]
        show b.readable ++ bs.take r.2 ++ bs.drop r.2 =
          (b.readable ++ []) ++ bs
        rw [List.append_nil, List.append_assoc, List.take_append_drop]
    | b' :: rest' =>
      obtain ⟨ihwf, ihflat⟩ := ih hrest
      have hstep : write bs (b :: b' :: rest' : SegBuf block_size) =
          b :: write bs (b' :: rest' : SegBuf block_size) := rfl
      refine ⟨?_, ?_⟩
      · rw [hstep]
        exact ⟨hb, ihwf⟩
      · rw [hstep]
        show b.readable ++ flatten (write bs (b' :: rest' : SegBuf block_size)) = _
        rw [ihflat]
        show _ = b.readable ++ flatten (b' :: rest' : SegBuf block_size) ++ bs
        rw [List.append_assoc]

theorem read_spec :
    ∀ (c : SegBuf block_size) (n : Nat), wf c →
      (read n c).1 = (flatten c).take n ∧
        flatten (read n c).2 = (flatten c).drop n ∧ wf (read n c).2 := by
  intro c
  induction c with
  | nil =>
    intro n _
    refine ⟨by simp [read, flatten], by simp [read, flatten], trivial⟩
  | cons b rest ih =>
    intro n hc
    obtain ⟨hb, hrest⟩ := hc
    have hlen : b.readable.length = b.size := intrusive_storage.readable_length b hb
    by_cases hn : n ≤ b.size
    · have hk : min n b.size = n := Nat.min_eq_left hn
      have hstep : read n (b :: rest : SegBuf block_size) =
          ((b.read (min n b.size) false).2.1,
            (b.read (min n b.size) false).1 :: rest) := by
        simp [read, hn]
      rw [hstep, hk, intrusive_storage.read_eq b n hb hn]
      refine ⟨?_, ?_, ?_⟩
      · show b.readable.take n = _
        show _ = (b.readable ++ flatten rest).take n
        rw [List.take_append_eq_append_take,
          show n - b.readable.length = 0 by omega, List.take_zero,
          List.append_nil]
      · show ({ b with read_offset := b.read_offset + n } :
          intrusive_storage block_size).readable ++ flatten rest = _
        have hrd := intrusive_storage.read_readable b n hb hn
        rw [intrusive_storage.read_eq b n hb hn] at hrd
        rw [hrd]
        show _ = (b.readable ++ flatten rest).drop n
        rw [List.drop_append_eq_append_drop,
          show n - b.readable.length = 0 by omega, List.drop_zero]
      · refine ⟨?_, hrest⟩
        have hwf := intrusive_storage.read_wf b n hb hn
        rw [intrusive_storage.read_eq b n hb hn] at hwf
        exact hwf
    · push_neg at hn
      have hk : min n b.size = b.size := Nat.min_eq_right (Nat.le_of_lt hn)
      have hstep : read n (b :: rest : SegBuf block_size) =
          ((b.read (min n b.size) false).2.1 ++
              (read (n - min n b.size) rest).1,
            (read (n - min n b.size) rest).2) := by
        simp [read, Nat.not_le.mpr hn]
      obtain ⟨ih1, ih2, ih3⟩ := ih (n - b.size) hrest
      rw [hstep, hk, intrusive_storage.read_eq b b.size hb (Nat.le_refl _)]
      refine ⟨?_, ?_, ?_⟩
      · show b.readable.take b.size ++ (read (n - b.size) rest).1 = _
        rw [ih1,
          List.take_of_length_le (show b.readable.length ≤ b.size by omega)]
        show _ = (b.readable ++ flatten rest).take n
        rw [List.take_append_eq_append_take,
          List.take_of_length_le (show b.readable.length ≤ n by omega), hlen]
      · show flatten (read (n - b.size) rest).2 = _
        rw [ih2]
        show _ = (b.readable ++ flatten rest).drop n
        rw [List.drop_append_eq_append_drop,
          List.drop_of_length_le (show b.readable.length ≤ n by omega),
          List.nil_append, hlen]
      · exact ih3

end SegBuf

/-- The segmented buffer as a stream-facing buffer. -/
def segBufOps (block_size : Nat) : BufOps (SegBuf block_size) where
  size := SegBuf.size
  read := fun c n => SegBuf.read n c
  skip := fun c n => SegBuf.skip n c
  find_first_of := fun c v => SegBuf.seg_find_first_of c v
  write := fun c bs => SegBuf.write bs c

/-!
## `hexi::binary_stream` (binary_stream.h)

The single-class stream over a `buf_type` template parameter (here: the
`ops : BufOps β` record).  The `exceptions` template parameter is the
`throwing : Bool` argument: `true` is `allow_throw`, `false` is
`no_throw`.  A `Bool` "thrown" component models a raised
`buffer_underrun`/`stream_read_limit` exception; when it is set, the
operations after the throw point did not run.
-/

structure binary_stream (β : Type) where
  buffer : β
  total_write : Nat := 0
  total_read : Nat := 0
  state : stream_state := .ok
  read_limit : Nat := 0
deriving DecidableEq

namespace binary_stream

variable {β : Type}

/-- `check_read_bounds(read_size)`.  Sets `buff_limit_err` when the
request exceeds the buffer, otherwise `read_limit_err` when a non-zero
read limit would be crossed, otherwise bumps `total_read_`.  In
`allow_throw` mode the two failure branches throw. -/
def check_read_bounds (throwing : Bool) (ops : BufOps β)
    (s : binary_stream β) (read_size : Nat) : binary_stream β × Bool :=
  if read_size > ops.size s.buffer then
    ({ s with state := .buff_limit_err }, throwing)
  else
    let max_read_remaining := usub s.read_limit s.total_read
    if s.read_limit ≠ 0 ∧ read_size > max_read_remaining then
      ({ s with state := .read_limit_err }, throwing)
    else
      ({ s with total_read := uadd s.total_read read_size }, false)

/-- A bounded read of `n` bytes: `STREAM_READ_BOUNDS_CHECK(n, _)` followed
by `buffer_.read` (the `operator>>(T&)` / `get<T>()` scalar path).  Note
the macro re-checks the state only under `no_throw`: in `allow_throw`
mode a stream whose state was already non-ok proceeds to the buffer read
whenever the bounds check passes. -/
def get_n (throwing : Bool) (ops : BufOps β) (s : binary_stream β)
    (n : Nat) : binary_stream β × List Nat × Bool :=
  let r := check_read_bounds throwing ops s n
  if r.2 then
    (r.1, [], true)
  else if throwing = false ∧ r.1.state ≠ .ok then
    (r.1, [], false)
  else
    let rd := ops.read r.1.buffer n
    ({ r.1 with buffer := rd.2 }, rd.1, false)

/-- `skip(count)`: `STREAM_READ_BOUNDS_CHECK` then `buffer_.skip`. -/
def skip (throwing : Bool) (ops : BufOps β) (s : binary_stream β)
    (n : Nat) : binary_stream β × Bool :=
  let r := check_read_bounds throwing ops s n
  if r.2 then
    (r.1, true)
  else if throwing = false ∧ r.1.state ≠ .ok then
    (r.1, false)
  else
    ({ r.1 with buffer := ops.skip r.1.buffer n }, false)

/-- `operator<<(const std::string&)`: writes the payload plus its null
terminator (`data.size() + 1` bytes) and bumps `total_write_` by the
same amount.  No state check and no bounds check are performed. -/
def shl_string (ops : BufOps β) (s : binary_stream β) (str : List Nat) :
    binary_stream β :=
  { s with buffer := ops.write s.buffer (str ++ [0]),
           total_write := uadd s.total_write (str.length + 1) }

/-- The unbounded write path shared by `operator<<(const T&)` and the
`put` overloads: `buffer_.write` then `total_write_ += size`.  No state
check is performed. -/
def put_bytes (ops : BufOps β) (s : binary_stream β) (data : List Nat) :
    binary_stream β :=
  { s with buffer := ops.write s.buffer data,
           total_write := uadd s.total_write data.length }

/-- `operator>>(std::string&)`: find the next null byte; clear the
destination when there is none, otherwise copy the bytes before it,
count them and the terminator into `total_read_`, and skip the
terminator.  Neither the stream state nor the bounds policy is
consulted. -/
def shr_string (ops : BufOps β) (s : binary_stream β) :
    binary_stream β × List Nat :=
  match ops.find_first_of s.buffer 0 with
  | none => (s, [])
  | some pos =>
    let rd := ops.read s.buffer pos
    ({ s with buffer := ops.skip rd.2 1,
              total_read := uadd (uadd s.total_read pos) 1 }, rd.1)

/-- `clear_error_state()`. -/
def clear_error_state (s : binary_stream β) : binary_stream β :=
  { s with state := .ok }

/-- `set_error_state()`. -/
def set_error_state (s : binary_stream β) : binary_stream β :=
  { s with state := .user_defined_err }

end binary_stream

/-!
## `hexi::pmc::binary_stream_reader` (pmc/binary_stream_reader.h)

The polymorphic reader.  `stream_base` contributes the `state` and the
construction-time `allow_throw` flag (the `no_throw_t` constructor sets
it to `false`); the borrowed `buffer_read` is the `ops`/`buffer` pair.
-/

structure binary_stream_reader (β : Type) where
  buffer : β
  total_read : Nat := 0
  read_limit : Nat := 0
  state : stream_state := .ok
  allow_throw : Bool := true
deriving DecidableEq

namespace binary_stream_reader

variable {β : Type}

/-- `enforce_read_bounds(read_size)`: like `check_read_bounds` of
`binary_stream`, the buffer-capacity check, then the read-limit check,
then `total_read_ += read_size`; with `HEXI_THROW` gated on the runtime
`allow_throw()` flag. -/
def enforce_read_bounds (s : binary_stream_reader β) (ops : BufOps β)
    (read_size : Nat) : binary_stream_reader β × Bool :=
  if read_size > ops.size s.buffer then
    ({ s with state := .buff_limit_err }, s.allow_throw)
  else
    if s.read_limit ≠ 0 ∧ read_size > usub s.read_limit s.total_read then
      ({ s with state := .read_limit_err }, s.allow_throw)
    else
      ({ s with total_read := uadd s.total_read read_size }, false)

/-- The `STREAM_READ_BOUNDS_ENFORCE(read_size, _)` macro: early return on
an already poisoned stream, `enforce_read_bounds`, and under
`!allow_throw()` an early return when the enforcement failed.  Result:
the updated reader, whether the caller may proceed to touch the buffer,
and whether an exception was thrown. -/
def bounds_enforce (s : binary_stream_reader β) (ops : BufOps β)
    (read_size : Nat) : binary_stream_reader β × Bool × Bool :=
  if s.state ≠ .ok then
    (s, false, false)
  else
    let r := enforce_read_bounds s ops read_size
    if r.2 then
      (r.1, false, true)
    else if ¬s.allow_throw ∧ r.1.state ≠ .ok then
      (r.1, false, false)
    else
      (r.1, true, false)

/-- `SAFE_READ` into a zero-initialised scalar (`template<arithmetic T>
T get()` and the endian-adaptor read): on an early return the caller
sees the zeroed destination. -/
def get_n (ops : BufOps β) (s : binary_stream_reader β) (n : Nat) :
    binary_stream_reader β × List Nat × Bool :=
  let r := bounds_enforce s ops n
  if r.2.1 then
    let rd := ops.read r.1.buffer n
    ({ r.1 with buffer := rd.2 }, rd.1, false)
  else
    (r.1, List.replicate n 0, r.2.2)

/-- `skip(length)`: `STREAM_READ_BOUNDS_ENFORCE` then `buffer_.skip`. -/
def skip (ops : BufOps β) (s : binary_stream_reader β) (n : Nat) :
    binary_stream_reader β × Bool :=
  let r := bounds_enforce s ops n
  if r.2.1 then
    ({ r.1 with buffer := ops.skip r.1.buffer n }, false)
  else
    (r.1, r.2.2)

/-- `std::uint32_t size = 0; *this >> endian::le(size)`: a four-byte
`SAFE_READ` reassembled little-endian.  On an early return the value
keeps its zero initialisation. -/
def get_u32le (ops : BufOps β) (s : binary_stream_reader β) :
    binary_stream_reader β × Nat × Bool :=
  let r := get_n ops s 4
  (r.1, fromLE4 r.2.1, r.2.2)

/-- `operator>>(prefixed<std::string>)`: read the little-endian
`uint32_t` length, stop on a non-ok state, bounds-enforce the length,
then read the payload.  `none` means the destination string kept its
previous contents (an early return or a throw happened). -/
def read_fixed_len_string (ops : BufOps β) (s : binary_stream_reader β) :
    binary_stream_reader β × Option (List Nat) × Bool :=
  let r := get_u32le ops s
  if r.2.2 then
    (r.1, none, true)
  else if r.1.state ≠ .ok then
    (r.1, none, false)
  else
    let e := bounds_enforce r.1 ops r.2.1
    if e.2.1 then
      let rd := ops.read e.1.buffer r.2.1
      ({ e.1 with buffer := rd.2 }, some rd.1, false)
    else
      (e.1, none, e.2.2)

/-- `operator>>(null_terminated<std::string>)`: find the terminator
(clearing the destination and returning when there is none),
bounds-enforce `pos + 1` (terminator included), copy `pos` bytes and skip
the terminator.  `some l` is a destination overwritten with `l`; `none`
means it kept its previous contents. -/
def read_null_term_string (ops : BufOps β) (s : binary_stream_reader β) :
    binary_stream_reader β × Option (List Nat) × Bool :=
  match ops.find_first_of s.buffer 0 with
  | none => (s, some [], false)
  | some pos =>
    let e := bounds_enforce s ops (pos + 1)
    if e.2.1 then
      let rd := ops.read e.1.buffer pos
      ({ e.1 with buffer := ops.skip rd.2 1 }, some rd.1, false)
    else
      (e.1, none, e.2.2)

/-- Modelled from the spec: `varint_decode` (spec section 4.6) is not
among the available sources.  It reads one byte at a time through the
ordinary bounds-checked scalar read path (`get_n` of one byte),
accumulating seven payload bits per byte, least-significant group first,
until a byte with the continuation bit clear.  `fuel` bounds the loop;
ten bytes cover a 64-bit target. -/
def varint_decode (ops : BufOps β) :
    Nat → binary_stream_reader β → Nat → Nat →
      binary_stream_reader β × Nat × Bool
  | 0, s, _, acc => (s, acc, false)
  | fuel + 1, s, shift, acc =>
    let r := get_n ops s 1
    if r.2.2 then
      (r.1, acc, true)
    else
      let b := r.2.1.headD 0
      let acc' := acc + b % 128 * 2 ^ shift
      if b ≥ 128 then
        varint_decode ops fuel r.1 (shift + 7) acc'
      else
        (r.1, acc', false)

/-- `operator>>(prefixed_varint<std::string>)`: decode the varint length,
then check `state() != stream_state::ok` — the branch the source marks
`std::unreachable()` — then bounds-enforce and read the payload.  The
last component records whether the `std::unreachable()` branch was
executed. -/
def read_varint_len_string (ops : BufOps β) (s : binary_stream_reader β) :
    binary_stream_reader β × Option (List Nat) × Bool × Bool :=
  let r := varint_decode ops 10 s 0 0
  if r.2.2 then
    (r.1, none, true, false)
  else if r.1.state ≠ .ok then
    (r.1, none, false, true)
  else
    let e := bounds_enforce r.1 ops r.2.1
    if e.2.1 then
      let rd := ops.read e.1.buffer r.2.1
      ({ e.1 with buffer := rd.2 }, some rd.1, false, false)
    else
      (e.1, none, e.2.2, false)

/-- `read_max()`: the remaining read-limit budget when a limit is
configured (the source asserts `total_read_ < read_limit_` there),
otherwise `buffer_.size()`. -/
def read_max (ops : BufOps β) (s : binary_stream_reader β) : Nat :=
  if s.read_limit ≠ 0 then
    usub s.read_limit s.total_read
  else
    ops.size s.buffer

/-- `stream_base::clear_error_state()`. -/
def clear_error_state (s : binary_stream_reader β) : binary_stream_reader β :=
  { s with state := .ok }

end binary_stream_reader

/-!
## `hexi::pmc::binary_stream_writer` (pmc/binary_stream_writer.h)
-/

structure binary_stream_writer (β : Type) where
  buffer : β
  total_write : Nat := 0
  state : stream_state := .ok
  allow_throw : Bool := true
deriving DecidableEq

namespace binary_stream_writer

variable {β : Type}

/-- The private `write(data, size)` helper: only a stream whose state is
ok touches the buffer.  The `HEXI_CATCH` arm (`buff_write_err` on a
throwing sink) is unreachable here because the byte-queue and
block-chain buffer models never fail. -/
def write (ops : BufOps β) (w : binary_stream_writer β) (data : List Nat) :
    binary_stream_writer β :=
  if w.state = .ok then
    { w with buffer := ops.write w.buffer data,
             total_write := uadd w.total_write data.length }
  else
    w

/-- `operator<<(prefixed<T>)` for a byte container: write
`endian::native_to_little(static_cast<uint32_t>(size))` and then the
payload through the trivially-copyable `write_container` path. -/
def shl_fixed_len_string (ops : BufOps β) (w : binary_stream_writer β)
    (str : List Nat) : binary_stream_writer β :=
  write ops (write ops w (le4 str.length)) str

/-- `operator<<(const std::string&)`: delegates to the fixed-length
framing (`*this << prefixed(string)`). -/
def shl_string (ops : BufOps β) (w : binary_stream_writer β)
    (str : List Nat) : binary_stream_writer β :=
  shl_fixed_len_string ops w str

end binary_stream_writer

/-!
## Step characterizations

Helper lemmas describing a single bounded read in each of its three
outcomes (success, buffer underrun, read-limit crossing), for both stream
implementations.
-/

namespace binary_stream

theorem check_read_bounds_pass (m : Bool) (ops : BufOps β)
    (s : binary_stream β) (n : Nat) (h1 : n ≤ ops.size s.buffer)
    (h2 : s.read_limit = 0 ∨ n ≤ usub s.read_limit s.total_read) :
    check_read_bounds m ops s n =
      ({ s with total_read := uadd s.total_read n }, false) := by
  have h1' : ¬n > ops.size s.buffer := Nat.not_lt.mpr h1
  have h2' : ¬(s.read_limit ≠ 0 ∧ n > usub s.read_limit s.total_read) := by
    rcases h2 with h | h
    · simp [h]
    · simp [Nat.not_lt.mpr h]
  simp [check_read_bounds, h1', h2']

theorem check_read_bounds_underrun (m : Bool) (ops : BufOps β)
    (s : binary_stream β) (n : Nat) (h : n > ops.size s.buffer) :
    check_read_bounds m ops s n = ({ s with state := .buff_limit_err }, m) := by
  simp [check_read_bounds, h]

theorem check_read_bounds_limit (m : Bool) (ops : BufOps β)
    (s : binary_stream β) (n : Nat) (h1 : n ≤ ops.size s.buffer)
    (h2 : s.read_limit ≠ 0) (h3 : n > usub s.read_limit s.total_read) :
    check_read_bounds m ops s n = ({ s with state := .read_limit_err }, m) := by
  have h1' : ¬n > ops.size s.buffer := Nat.not_lt.mpr h1
  simp [check_read_bounds, h1', h2, h3]

theorem get_n_pass_bs (m : Bool) (ops : BufOps β) (s : binary_stream β)
    (n : Nat) (hs : s.state = .ok) (h1 : n ≤ ops.size s.buffer)
    (h2 : s.read_limit = 0 ∨ n ≤ usub s.read_limit s.total_read) :
    get_n m ops s n =
      ({ s with buffer := (ops.read s.buffer n).2,
                total_read := uadd s.total_read n },
        (ops.read s.buffer n).1, false) := by
  rw [get_n, check_read_bounds_pass m ops s n h1 h2]
  simp [hs]

theorem get_n_underrun_bs (m : Bool) (ops : BufOps β) (s : binary_stream β)
    (n : Nat) (h : n > ops.size s.buffer) :
    get_n m ops s n = ({ s with state := .buff_limit_err }, [], m) := by
  rw [get_n, check_read_bounds_underrun m ops s n h]
  cases m <;> simp

theorem get_n_limit_bs (m : Bool) (ops : BufOps β) (s : binary_stream β)
    (n : Nat) (h1 : n ≤ ops.size s.buffer) (h2 : s.read_limit ≠ 0)
    (h3 : n > usub s.read_limit s.total_read) :
    get_n m ops s n = ({ s with state := .read_limit_err }, [], m) := by
  rw [get_n, check_read_bounds_limit m ops s n h1 h2 h3]
  cases m <;> simp

theorem skip_underrun_bs (m : Bool) (ops : BufOps β) (s : binary_stream β)
    (n : Nat) (h : n > ops.size s.buffer) :
    skip m ops s n = ({ s with state := .buff_limit_err }, m) := by
  rw [skip, check_read_bounds_underrun m ops s n h]
  cases m <;> simp

end binary_stream

namespace binary_stream_reader

theorem bounds_enforce_pass (ops : BufOps β) (s : binary_stream_reader β)
    (n : Nat) (hs : s.state = .ok) (h1 : n ≤ ops.size s.buffer)
    (h2 : s.read_limit = 0 ∨ n ≤ usub s.read_limit s.total_read) :
    bounds_enforce s ops n =
      ({ s with total_read := uadd s.total_read n }, true, false) := by
  have h1' : ¬n > ops.size s.buffer := Nat.not_lt.mpr h1
  have h2' : ¬(s.read_limit ≠ 0 ∧ n > usub s.read_limit s.total_read) := by
    rcases h2 with h | h
    · simp [h]
    · simp [Nat.not_lt.mpr h]
  simp [bounds_enforce, enforce_read_bounds, hs, h1', h2']

theorem bounds_enforce_underrun (ops : BufOps β) (s : binary_stream_reader β)
    (n : Nat) (hs : s.state = .ok) (h : n > ops.size s.buffer) :
    bounds_enforce s ops n =
      ({ s with state := .buff_limit_err }, false, s.allow_throw) := by
  cases ht : s.allow_throw <;>
    simp [bounds_enforce, enforce_read_bounds, hs, h, ht]

theorem bounds_enforce_limit (ops : BufOps β) (s : binary_stream_reader β)
    (n : Nat) (hs : s.state = .ok) (h1 : n ≤ ops.size s.buffer)
    (h2 : s.read_limit ≠ 0) (h3 : n > usub s.read_limit s.total_read) :
    bounds_enforce s ops n =
      ({ s with state := .read_limit_err }, false, s.allow_throw) := by
  have h1' : ¬n > ops.size s.buffer := Nat.not_lt.mpr h1
  cases ht : s.allow_throw <;>
    simp [bounds_enforce, enforce_read_bounds, hs, h1', h2, h3, ht]

theorem get_n_pass (ops : BufOps β) (s : binary_stream_reader β) (n : Nat)
    (hs : s.state = .ok) (h1 : n ≤ ops.size s.buffer)
    (h2 : s.read_limit = 0 ∨ n ≤ usub s.read_limit s.total_read) :
    get_n ops s n =
      ({ s with buffer := (ops.read s.buffer n).2,
                total_read := uadd s.total_read n },
        (ops.read s.buffer n).1, false) := by
  rw [get_n, bounds_enforce_pass ops s n hs h1 h2]
  rfl

theorem get_n_underrun (ops : BufOps β) (s : binary_stream_reader β)
    (n : Nat) (hs : s.state = .ok) (h : n > ops.size s.buffer) :
    get_n ops s n =
      ({ s with state := .buff_limit_err },
        List.replicate n 0, s.allow_throw) := by
  rw [get_n, bounds_enforce_underrun ops s n hs h]
  rfl

theorem get_n_limit (ops : BufOps β) (s : binary_stream_reader β)
    (n : Nat) (hs : s.state = .ok) (h1 : n ≤ ops.size s.buffer)
    (h2 : s.read_limit ≠ 0) (h3 : n > usub s.read_limit s.total_read) :
    get_n ops s n =
      ({ s with state := .read_limit_err },
        List.replicate n 0, s.allow_throw) := by
  rw [get_n, bounds_enforce_limit ops s n hs h1 h2 h3]
  rfl

theorem skip_underrun (ops : BufOps β) (s : binary_stream_reader β)
    (n : Nat) (hs : s.state = .ok) (h : n > ops.size s.buffer) :
    skip ops s n = ({ s with state := .buff_limit_err }, s.allow_throw) := by
  rw [skip, bounds_enforce_underrun ops s n hs h]
  rfl

theorem bounds_enforce_poisoned (ops : BufOps β) (s : binary_stream_reader β)
    (n : Nat) (h : s.state ≠ .ok) :
    bounds_enforce s ops n = (s, false, false) := by
  simp [bounds_enforce, h]

end binary_stream_reader

namespace binary_stream_writer

theorem write_ok (ops : BufOps β) (w : binary_stream_writer β)
    (data : List Nat) (h : w.state = .ok) :
    write ops w data =
      { w with buffer := ops.write w.buffer data,
               total_write := uadd w.total_write data.length } := by
  rw [write, if_pos h]

end binary_stream_writer

/-!
## Sequences of bounded reads

Runners that fold a list of requested sizes through the bounded scalar
read of each implementation, catching (in throwing mode) any raised
error and continuing with the next request.
-/

namespace binary_stream

def run_gets (m : Bool) (ops : BufOps β) (s : binary_stream β)
    (reqs : List Nat) : binary_stream β :=
  reqs.foldl (fun st n => (get_n m ops st n).1) s

theorem run_gets_ok_bs (m : Bool) (reqs : List Nat) :
    ∀ s : binary_stream (List Nat), s.state = .ok → s.read_limit ≠ 0 →
      s.read_limit < usize → s.total_read + reqs.sum ≤ s.read_limit →
      reqs.sum ≤ s.buffer.length →
      run_gets m listBufOps s reqs =
        { s with buffer := s.buffer.drop reqs.sum,
                 total_read := s.total_read + reqs.sum } := by
  induction reqs with
  | nil =>
    intro s _ _ _ _ _
    show s = _
    simp
  | cons n rest ih =>
    intro s hs hL hLW hsum hbuf
    rw [List.sum_cons] at hsum hbuf
    have hn_buf : n ≤ listBufOps.size s.buffer := by
      show n ≤ s.buffer.length
      omega
    have htr : s.total_read ≤ s.read_limit := by omega
    have hlim : s.read_limit = 0 ∨ n ≤ usub s.read_limit s.total_read := by
      right
      rw [usub_eq s.read_limit s.total_read htr hLW]
      omega
    have hstep : (get_n m listBufOps s n).1 =
        { s with buffer := s.buffer.drop n,
                 total_read := s.total_read + n } := by
      rw [get_n_pass_bs m listBufOps s n hs hn_buf hlim,
        uadd_eq s.total_read n (by omega)]
      rfl
    have ih' := ih
      { s with buffer := s.buffer.drop n, total_read := s.total_read + n }
      hs hL hLW
      (by show s.total_read + n + rest.sum ≤ s.read_limit; omega)
      (by show rest.sum ≤ (s.buffer.drop n).length
          rw [List.length_drop]; omega)
    show run_gets m listBufOps (get_n m listBufOps s n).1 rest = _
    rw [hstep, ih', List.sum_cons, List.drop_drop, Nat.add_assoc]

end binary_stream

namespace binary_stream_reader

def run_gets (ops : BufOps β) (s : binary_stream_reader β)
    (reqs : List Nat) : binary_stream_reader β :=
  reqs.foldl (fun st n => (get_n ops st n).1) s

theorem run_gets_ok (reqs : List Nat) :
    ∀ s : binary_stream_reader (List Nat), s.state = .ok → s.read_limit ≠ 0 →
      s.read_limit < usize → s.total_read + reqs.sum ≤ s.read_limit →
      reqs.sum ≤ s.buffer.length →
      run_gets listBufOps s reqs =
        { s with buffer := s.buffer.drop reqs.sum,
                 total_read := s.total_read + reqs.sum } := by
  induction reqs with
  | nil =>
    intro s _ _ _ _ _
    show s = _
    simp
  | cons n rest ih =>
    intro s hs hL hLW hsum hbuf
    rw [List.sum_cons] at hsum hbuf
    have hn_buf : n ≤ listBufOps.size s.buffer := by
      show n ≤ s.buffer.length
      omega
    have htr : s.total_read ≤ s.read_limit := by omega
    have hlim : s.read_limit = 0 ∨ n ≤ usub s.read_limit s.total_read := by
      right
      rw [usub_eq s.read_limit s.total_read htr hLW]
      omega
    have hstep : (get_n listBufOps s n).1 =
        { s with buffer := s.buffer.drop n,
                 total_read := s.total_read + n } := by
      rw [get_n_pass listBufOps s n hs hn_buf hlim,
        uadd_eq s.total_read n (by omega)]
      rfl
    have ih' := ih
      { s with buffer := s.buffer.drop n, total_read := s.total_read + n }
      hs hL hLW
      (by show s.total_read + n + rest.sum ≤ s.read_limit; omega)
      (by show rest.sum ≤ (s.buffer.drop n).length
          rw [List.length_drop]; omega)
    show run_gets listBufOps (get_n listBufOps s n).1 rest = _
    rw [hstep, ih', List.sum_cons, List.drop_drop, Nat.add_assoc]

end binary_stream_reader

/-!
## Mode independence of the pmc streams

The construction-time `allow_throw` flag decides only whether a bounds
violation raises; the stream fields evolve identically in both modes.
`with_mode` swaps the flag; every operation commutes with it.
-/

namespace binary_stream_reader

/-- The same reader constructed with the other propagation mode. -/
def with_mode (s : binary_stream_reader β) (m : Bool) :
    binary_stream_reader β :=
  { s with allow_throw := m }

theorem with_mode_state (s : binary_stream_reader β) (m : Bool) :
    (with_mode s m).state = s.state := rfl

theorem with_mode_buffer (s : binary_stream_reader β) (m : Bool) :
    (with_mode s m).buffer = s.buffer := rfl

/-- A sequence of bounded reader operations (the serialisation paths the
reader dispatches on). -/
inductive reader_op where
  | get_op (n : Nat)
  | skip_op (n : Nat)
  | fixed_len_str_op
  | null_term_str_op
deriving DecidableEq

/-- One operation, discarding the extracted value (and, in throwing
mode, catching any raised error). -/
def step (ops : BufOps β) (s : binary_stream_reader β) :
    reader_op → binary_stream_reader β
  | .get_op n => (get_n ops s n).1
  | .skip_op n => (skip ops s n).1
  | .fixed_len_str_op => (read_fixed_len_string ops s).1
  | .null_term_str_op => (read_null_term_string ops s).1

/-- Running a sequence of operations. -/
def run (ops : BufOps β) (s : binary_stream_reader β)
    (l : List reader_op) : binary_stream_reader β :=
  l.foldl (step ops) s

theorem bounds_enforce_mode (ops : BufOps β) (s : binary_stream_reader β)
    (n : Nat) (m : Bool) :
    (bounds_enforce (with_mode s m) ops n).1 =
      with_mode (bounds_enforce s ops n).1 m ∧
    (bounds_enforce (with_mode s m) ops n).2.1 =
      (bounds_enforce s ops n).2.1 := by
  by_cases hs : s.state = .ok
  · by_cases h1 : n > ops.size s.buffer
    · cases m <;> cases hsa : s.allow_throw <;> constructor <;>
        simp [bounds_enforce, enforce_read_bounds, with_mode, hs, h1, hsa]
    · by_cases h2 : s.read_limit ≠ 0 ∧ n > usub s.read_limit s.total_read
      · cases m <;> cases hsa : s.allow_throw <;> constructor <;>
          simp [bounds_enforce, enforce_read_bounds, with_mode, hs, h1, h2, hsa]
      · constructor <;>
          simp [bounds_enforce, enforce_read_bounds, with_mode, hs, h1, h2]
  · constructor <;> simp [bounds_enforce, with_mode, hs]

theorem bounds_enforce_thrown (ops : BufOps β) (s : binary_stream_reader β)
    (n : Nat) :
    (bounds_enforce s ops n).2.2 = true →
      (bounds_enforce s ops n).1.state ≠ .ok := by
  by_cases hs : s.state = .ok
  · by_cases h1 : n > ops.size s.buffer
    · cases hsa : s.allow_throw <;>
        simp [bounds_enforce, enforce_read_bounds, hs, h1, hsa]
    · by_cases h2 : s.read_limit ≠ 0 ∧ n > usub s.read_limit s.total_read
      · cases hsa : s.allow_throw <;>
          simp [bounds_enforce, enforce_read_bounds, hs, h1, h2, hsa]
      · simp [bounds_enforce, enforce_read_bounds, hs, h1, h2]
  · simp [bounds_enforce, hs]

theorem get_n_mode (ops : BufOps β) (s : binary_stream_reader β)
    (n : Nat) (m : Bool) :
    (get_n ops (with_mode s m) n).1 = with_mode ((get_n ops s n).1) m ∧
    (get_n ops (with_mode s m) n).2.1 = (get_n ops s n).2.1 := by
  obtain ⟨h1, h2⟩ := bounds_enforce_mode ops s n m
  constructor <;> simp only [get_n] <;> rw [h1, h2] <;>
    cases hb : (bounds_enforce s ops n).2.1 <;> simp [with_mode, hb]

theorem skip_mode (ops : BufOps β) (s : binary_stream_reader β)
    (n : Nat) (m : Bool) :
    (skip ops (with_mode s m) n).1 = with_mode ((skip ops s n).1) m := by
  obtain ⟨h1, h2⟩ := bounds_enforce_mode ops s n m
  simp only [skip]
  rw [h1, h2]
  cases hb : (bounds_enforce s ops n).2.1 <;> simp [with_mode, hb]

theorem get_n_thrown (ops : BufOps β) (s : binary_stream_reader β) (n : Nat) :
    (get_n ops s n).2.2 = true → (get_n ops s n).1.state ≠ .ok := by
  have hb := bounds_enforce_thrown ops s n
  simp only [get_n]
  cases hp : (bounds_enforce s ops n).2.1 <;> simp [hp]
  exact hb

theorem get_u32le_mode (ops : BufOps β) (s : binary_stream_reader β)
    (m : Bool) :
    (get_u32le ops (with_mode s m)).1 = with_mode ((get_u32le ops s).1) m ∧
    (get_u32le ops (with_mode s m)).2.1 = (get_u32le ops s).2.1 := by
  obtain ⟨h1, h2⟩ := get_n_mode ops s 4 m
  refine ⟨?_, ?_⟩
  · simp only [get_u32le]
    rw [h1]
  · simp only [get_u32le]
    rw [h2]

theorem get_u32le_thrown (ops : BufOps β) (s : binary_stream_reader β) :
    (get_u32le ops s).2.2 = true → (get_u32le ops s).1.state ≠ .ok := by
  simp only [get_u32le]
  exact get_n_thrown ops s 4

theorem read_fixed_len_string_mode (ops : BufOps β)
    (s : binary_stream_reader β) (m : Bool) :
    (read_fixed_len_string ops (with_mode s m)).1 =
      with_mode ((read_fixed_len_string ops s).1) m ∧
    (read_fixed_len_string ops (with_mode s m)).2.1 =
      (read_fixed_len_string ops s).2.1 := by
  obtain ⟨hu1, hu2⟩ := get_u32le_mode ops s m
  by_cases hst : (get_u32le ops s).1.state = .ok
  · have hth : (get_u32le ops s).2.2 = false := by
      cases h : (get_u32le ops s).2.2
      · rfl
      · exact absurd hst (get_u32le_thrown ops s h)
    have hstm : (get_u32le ops (with_mode s m)).1.state = .ok := by
      rw [hu1]
      exact hst
    have hthm : (get_u32le ops (with_mode s m)).2.2 = false := by
      cases h : (get_u32le ops (with_mode s m)).2.2
      · rfl
      · exact absurd hstm (get_u32le_thrown ops (with_mode s m) h)
    obtain ⟨hb1, hb2⟩ :=
      bounds_enforce_mode ops (get_u32le ops s).1 (get_u32le ops s).2.1 m
    constructor
    · simp only [read_fixed_len_string]
      rw [hthm, hth, hu1, hu2]
      simp only [with_mode_state, hst, ne_eq, Bool.false_eq_true, if_false,
        not_true_eq_false]
      rw [hb1, hb2]
      cases hp : (bounds_enforce (get_u32le ops s).1 ops
          (get_u32le ops s).2.1).2.1 <;>
        simp [with_mode, hp]
    · simp only [read_fixed_len_string]
      rw [hthm, hth, hu1, hu2]
      simp only [with_mode_state, hst, ne_eq, Bool.false_eq_true, if_false,
        not_true_eq_false]
      rw [hb1, hb2]
      cases hp : (bounds_enforce (get_u32le ops s).1 ops
          (get_u32le ops s).2.1).2.1 <;>
        simp [with_mode, hp]
  · have hstm : (get_u32le ops (with_mode s m)).1.state ≠ .ok := by
      rw [hu1, with_mode_state]
      exact hst
    constructor <;> simp only [read_fixed_len_string] <;>
      cases hthm : (get_u32le ops (with_mode s m)).2.2 <;>
      cases hth : (get_u32le ops s).2.2 <;>
      simp [hu1, hst, hstm, with_mode_state]

theorem read_null_term_string_mode (ops : BufOps β)
    (s : binary_stream_reader β) (m : Bool) :
    (read_null_term_string ops (with_mode s m)).1 =
      with_mode ((read_null_term_string ops s).1) m ∧
    (read_null_term_string ops (with_mode s m)).2.1 =
      (read_null_term_string ops s).2.1 := by
  have hbuf : (with_mode s m).buffer = s.buffer := rfl
  cases hf : ops.find_first_of s.buffer 0 with
  | none =>
    constructor <;> simp only [read_null_term_string, hbuf, hf]
  | some pos =>
    obtain ⟨hb1, hb2⟩ := bounds_enforce_mode ops s (pos + 1) m
    constructor <;> simp only [read_null_term_string, hbuf, hf] <;>
      rw [hb1, hb2] <;>
      cases hp : (bounds_enforce s ops (pos + 1)).2.1 <;>
      simp [with_mode, hp]

theorem step_mode (ops : BufOps β) (s : binary_stream_reader β)
    (op : reader_op) (m : Bool) :
    step ops (with_mode s m) op = with_mode (step ops s op) m := by
  cases op with
  | get_op n => exact (get_n_mode ops s n m).1
  | skip_op n => exact skip_mode ops s n m
  | fixed_len_str_op => exact (read_fixed_len_string_mode ops s m).1
  | null_term_str_op => exact (read_null_term_string_mode ops s m).1

theorem run_mode (ops : BufOps β) (l : List reader_op) :
    ∀ (s : binary_stream_reader β) (m : Bool),
      run ops (with_mode s m) l = with_mode (run ops s l) m := by
  induction l with
  | nil => intro s m; rfl
  | cons op rest ih =>
    intro s m
    show run ops (step ops (with_mode s m) op) rest = _
    rw [step_mode]
    exact ih (step ops s op) m

end binary_stream_reader

namespace binary_stream_writer

/-- The same writer constructed with the other propagation mode. -/
def with_mode (w : binary_stream_writer β) (m : Bool) :
    binary_stream_writer β :=
  { w with allow_throw := m }

theorem write_mode (ops : BufOps β) (w : binary_stream_writer β)
    (data : List Nat) (m : Bool) :
    write ops (with_mode w m) data = with_mode (write ops w data) m := by
  by_cases h : w.state = .ok <;> simp [write, with_mode, h]

end binary_stream_writer

/-- Reading a fixed-length-prefixed string from any well-formed segmented
buffer whose readable content is the four little-endian length bytes
followed by the payload recovers exactly the payload. -/
theorem seg_read_fixed_of_flatten (N : Nat) (B : SegBuf N) (s : List Nat)
    (mr : Bool) (hwf : SegBuf.wf B)
    (hfl : SegBuf.flatten B = le4 s.length ++ s) (hs : s.length < 2 ^ 32) :
    (binary_stream_reader.read_fixed_len_string (segBufOps N)
      (⟨B, 0, 0, .ok, mr⟩ : binary_stream_reader (SegBuf N))).2.1 = some s ∧
    (binary_stream_reader.read_fixed_len_string (segBufOps N)
      (⟨B, 0, 0, .ok, mr⟩ : binary_stream_reader (SegBuf N))).1.state =
      .ok := by
  obtain ⟨hrd1, hrd2, hrd3⟩ := SegBuf.read_spec B 4 hwf
  have hb4 : (SegBuf.read 4 B).1 = le4 s.length := by
    rw [hrd1, hfl,
      List.take_append_of_le_length (by rw [le4_length]),
      List.take_of_length_le (by rw [le4_length])]
  have hfl3 : SegBuf.flatten (SegBuf.read 4 B).2 = s := by
    rw [hrd2, hfl,
      show (4 : Nat) = (le4 s.length).length from (le4_length s.length).symm,
      List.drop_left]
  have hsz : (segBufOps N).size B = 4 + s.length := by
    show SegBuf.size B = _
    rw [SegBuf.size_eq_flatten_length B hwf, hfl, List.length_append,
      le4_length]
  have hget4 := binary_stream_reader.get_n_pass (segBufOps N)
    (⟨B, 0, 0, .ok, mr⟩ : binary_stream_reader (SegBuf N)) 4 rfl
    (by show (4 : Nat) ≤ (segBufOps N).size B
        rw [hsz]; omega)
    (Or.inl rfl)
  have hu : binary_stream_reader.get_u32le (segBufOps N)
      (⟨B, 0, 0, .ok, mr⟩ : binary_stream_reader (SegBuf N)) =
      ((⟨(SegBuf.read 4 B).2, uadd 0 4, 0, .ok, mr⟩ :
        binary_stream_reader (SegBuf N)), s.length, false) := by
    rw [binary_stream_reader.get_u32le, hget4]
    show ((⟨((segBufOps N).read B 4).2, uadd 0 4, 0, .ok, mr⟩ :
      binary_stream_reader (SegBuf N)),
        fromLE4 ((segBufOps N).read B 4).1, false) = _
    rw [show (segBufOps N).read B 4 = SegBuf.read 4 B from rfl, hb4,
      fromLE4_le4_of_lt s.length hs]
  have hsz3 : (segBufOps N).size (SegBuf.read 4 B).2 = s.length := by
    show SegBuf.size _ = _
    rw [SegBuf.size_eq_flatten_length _ hrd3, hfl3]
  have henf := binary_stream_reader.bounds_enforce_pass (segBufOps N)
    (⟨(SegBuf.read 4 B).2, uadd 0 4, 0, .ok, mr⟩ :
      binary_stream_reader (SegBuf N)) s.length rfl
    (by show s.length ≤ (segBufOps N).size (SegBuf.read 4 B).2
        rw [hsz3])
    (Or.inl rfl)
  obtain ⟨ha2, hb2, hc2⟩ :=
    SegBuf.read_spec (SegBuf.read 4 B).2 s.length hrd3
  have hbS : (SegBuf.read s.length (SegBuf.read 4 B).2).1 = s := by
    rw [ha2, hfl3, List.take_length]
  rw [binary_stream_reader.read_fixed_len_string, hu]
  dsimp only
  rw [henf]
  dsimp only
  refine ⟨?_, rfl⟩
  show some ((segBufOps N).read (SegBuf.read 4 B).2 s.length).1 = some s
  rw [show (segBufOps N).read (SegBuf.read 4 B).2 s.length =
    SegBuf.read s.length (SegBuf.read 4 B).2 from rfl, hbS]

/-!
## The claims
-/

/-- C1: for every reader (both throwing and non-throwing propagation
modes) and every requested size strictly greater than the buffer's
current readable size, a bounded read (or skip) sets the stream state to
`buff_limit_err` (the spec's `buffer_underrun`), consumes nothing from
the buffer, and leaves `total_read` unchanged.  For the pmc reader the
stream must not already be poisoned (a poisoned pmc stream early-returns
before the bounds check). -/
theorem claim_C1 (m : Bool) (s : binary_stream (List Nat))
    (r : binary_stream_reader (List Nat)) (n : Nat)
    (hs : n > s.buffer.length) (hr : n > r.buffer.length)
    (hro : r.state = .ok) :
    ((binary_stream.get_n m listBufOps s n).1.state = .buff_limit_err ∧
      (binary_stream.get_n m listBufOps s n).1.buffer = s.buffer ∧
      (binary_stream.get_n m listBufOps s n).1.total_read = s.total_read ∧
      (binary_stream.skip m listBufOps s n).1.state = .buff_limit_err ∧
      (binary_stream.skip m listBufOps s n).1.buffer = s.buffer ∧
      (binary_stream.skip m listBufOps s n).1.total_read = s.total_read) ∧
    ((binary_stream_reader.get_n listBufOps r n).1.state = .buff_limit_err ∧
      (binary_stream_reader.get_n listBufOps r n).1.buffer = r.buffer ∧
      (binary_stream_reader.get_n listBufOps r n).1.total_read = r.total_read ∧
      (binary_stream_reader.skip listBufOps r n).1.state = .buff_limit_err ∧
      (binary_stream_reader.skip listBufOps r n).1.buffer = r.buffer ∧
      (binary_stream_reader.skip listBufOps r n).1.total_read = r.total_read) := by
  rw [binary_stream.get_n_underrun_bs m listBufOps s n hs,
    binary_stream.skip_underrun_bs m listBufOps s n hs,
    binary_stream_reader.get_n_underrun listBufOps r n hro hr,
    binary_stream_reader.skip_underrun listBufOps r n hro hr]
  exact ⟨⟨rfl, rfl, rfl, rfl, rfl, rfl⟩, rfl, rfl, rfl, rfl, rfl, rfl⟩

/-- C1 witness: a concrete oversized read on a one-byte buffer. -/
theorem claim_C1_witness :
    ((2 > (({ buffer := [5] } : binary_stream (List Nat))).buffer.length ∧
      2 > (({ buffer := [5] } : binary_stream_reader (List Nat))).buffer.length ∧
      (({ buffer := [5] } : binary_stream_reader (List Nat))).state = .ok) ∧
    (((binary_stream.get_n false listBufOps { buffer := [5] } 2).1.state = .buff_limit_err ∧
      (binary_stream.get_n false listBufOps { buffer := [5] } 2).1.buffer =
        (({ buffer := [5] } : binary_stream (List Nat))).buffer ∧
      (binary_stream.get_n false listBufOps { buffer := [5] } 2).1.total_read =
        (({ buffer := [5] } : binary_stream (List Nat))).total_read ∧
      (binary_stream.skip false listBufOps { buffer := [5] } 2).1.state = .buff_limit_err ∧
      (binary_stream.skip false listBufOps { buffer := [5] } 2).1.buffer =
        (({ buffer := [5] } : binary_stream (List Nat))).buffer ∧
      (binary_stream.skip false listBufOps { buffer := [5] } 2).1.total_read =
        (({ buffer := [5] } : binary_stream (List Nat))).total_read) ∧
    ((binary_stream_reader.get_n listBufOps { buffer := [5] } 2).1.state = .buff_limit_err ∧
      (binary_stream_reader.get_n listBufOps { buffer := [5] } 2).1.buffer =
        (({ buffer := [5] } : binary_stream_reader (List Nat))).buffer ∧
      (binary_stream_reader.get_n listBufOps { buffer := [5] } 2).1.total_read =
        (({ buffer := [5] } : binary_stream_reader (List Nat))).total_read ∧
      (binary_stream_reader.skip listBufOps { buffer := [5] } 2).1.state = .buff_limit_err ∧
      (binary_stream_reader.skip listBufOps { buffer := [5] } 2).1.buffer =
        (({ buffer := [5] } : binary_stream_reader (List Nat))).buffer ∧
      (binary_stream_reader.skip listBufOps { buffer := [5] } 2).1.total_read =
        (({ buffer := [5] } : binary_stream_reader (List Nat))).total_read))) :=
  ⟨⟨by decide, by decide, by decide⟩,
    claim_C1 false { buffer := [5] } { buffer := [5] } 2
      (by decide) (by decide) (by decide)⟩

/-- C2: for every reader (both implementations; the pmc reader in either
propagation mode) constructed with a non-zero `read_limit` L, and every
sequence of bounded reads each within the buffer's current readable
size, a sequence whose total stays within L succeeds with `total_read`
equal to the exact sum of the requested sizes, and appending one read
that would make the cumulative total exceed L makes that read — and not
any earlier one — set `read_limit_err` (the spec's
`read_limit_exceeded`), leaving `total_read` and the buffer unchanged at
that read. -/
theorem claim_C2 (m mr : Bool) (L : Nat) (buf reqs : List Nat) (r : Nat)
    (hL0 : L ≠ 0) (hLW : L < usize) (hsum : reqs.sum ≤ L)
    (hcross : L < reqs.sum + r) (hbuf : reqs.sum + r ≤ buf.length) :
    (binary_stream.run_gets m listBufOps
        ({ buffer := buf, read_limit := L } : binary_stream (List Nat)) reqs =
      { buffer := buf.drop reqs.sum, total_read := reqs.sum,
        read_limit := L } ∧
      binary_stream.run_gets m listBufOps
        ({ buffer := buf, read_limit := L } : binary_stream (List Nat))
          (reqs ++ [r]) =
      { buffer := buf.drop reqs.sum, total_read := reqs.sum,
        state := .read_limit_err, read_limit := L }) ∧
    (binary_stream_reader.run_gets listBufOps
        ({ buffer := buf, read_limit := L, allow_throw := mr } :
          binary_stream_reader (List Nat)) reqs =
      { buffer := buf.drop reqs.sum, total_read := reqs.sum,
        read_limit := L, allow_throw := mr } ∧
      binary_stream_reader.run_gets listBufOps
        ({ buffer := buf, read_limit := L, allow_throw := mr } :
          binary_stream_reader (List Nat)) (reqs ++ [r]) =
      { buffer := buf.drop reqs.sum, total_read := reqs.sum,
        read_limit := L, state := .read_limit_err, allow_throw := mr }) := by
  have husub : usub L reqs.sum = L - reqs.sum :=
    usub_eq L reqs.sum (by omega) hLW
  constructor
  · have h1 := binary_stream.run_gets_ok_bs m reqs
      { buffer := buf, read_limit := L } rfl hL0 hLW
      (by show 0 + reqs.sum ≤ L; omega)
      (by show reqs.sum ≤ buf.length; omega)
    rw [Nat.zero_add] at h1
    refine ⟨h1, ?_⟩
    have h2 : binary_stream.run_gets m listBufOps
        ({ buffer := buf, read_limit := L } : binary_stream (List Nat))
          (reqs ++ [r]) =
        (binary_stream.get_n m listBufOps (binary_stream.run_gets m listBufOps
          ({ buffer := buf, read_limit := L } : binary_stream (List Nat))
            reqs) r).1 := by
      rw [binary_stream.run_gets, binary_stream.run_gets, List.foldl_append]
      rfl
    rw [h2, h1, binary_stream.get_n_limit_bs m listBufOps _ r
      (by show r ≤ (buf.drop reqs.sum).length
          rw [List.length_drop]; omega)
      hL0
      (by show ((usub L reqs.sum : Nat)) < r; rw [husub]; omega)]
  · have h1 := binary_stream_reader.run_gets_ok reqs
      { buffer := buf, read_limit := L, allow_throw := mr } rfl hL0 hLW
      (by show 0 + reqs.sum ≤ L; omega)
      (by show reqs.sum ≤ buf.length; omega)
    rw [Nat.zero_add] at h1
    refine ⟨h1, ?_⟩
    have h2 : binary_stream_reader.run_gets listBufOps
        ({ buffer := buf, read_limit := L, allow_throw := mr } :
          binary_stream_reader (List Nat)) (reqs ++ [r]) =
        (binary_stream_reader.get_n listBufOps
          (binary_stream_reader.run_gets listBufOps
            ({ buffer := buf, read_limit := L, allow_throw := mr } :
              binary_stream_reader (List Nat)) reqs) r).1 := by
      rw [binary_stream_reader.run_gets, binary_stream_reader.run_gets,
        List.foldl_append]
      rfl
    rw [h2, h1, binary_stream_reader.get_n_limit listBufOps _ r rfl
      (by show r ≤ (buf.drop reqs.sum).length
          rw [List.length_drop]; omega)
      hL0
      (by show ((usub L reqs.sum : Nat)) < r; rw [husub]; omega)]

/-- C2 witness: limit 3, a two-byte read that fits, then a two-byte read
that would cross the limit, over a four-byte buffer. -/
theorem claim_C2_witness :
    ((3 : Nat) ≠ 0 ∧ (3 : Nat) < usize ∧ ([2] : List Nat).sum ≤ 3 ∧
      3 < ([2] : List Nat).sum + 2 ∧
      ([2] : List Nat).sum + 2 ≤ ([9, 9, 9, 9] : List Nat).length) ∧
    ((binary_stream.run_gets false listBufOps
        ({ buffer := [9, 9, 9, 9], read_limit := 3 } :
          binary_stream (List Nat)) [2] =
      { buffer := ([9, 9, 9, 9] : List Nat).drop ([2] : List Nat).sum,
        total_read := ([2] : List Nat).sum, read_limit := 3 } ∧
      binary_stream.run_gets false listBufOps
        ({ buffer := [9, 9, 9, 9], read_limit := 3 } :
          binary_stream (List Nat)) ([2] ++ [2]) =
      { buffer := ([9, 9, 9, 9] : List Nat).drop ([2] : List Nat).sum,
        total_read := ([2] : List Nat).sum,
        state := .read_limit_err, read_limit := 3 }) ∧
    (binary_stream_reader.run_gets listBufOps
        ({ buffer := [9, 9, 9, 9], read_limit := 3, allow_throw := true } :
          binary_stream_reader (List Nat)) [2] =
      { buffer := ([9, 9, 9, 9] : List Nat).drop ([2] : List Nat).sum,
        total_read := ([2] : List Nat).sum, read_limit := 3,
        allow_throw := true } ∧
      binary_stream_reader.run_gets listBufOps
        ({ buffer := [9, 9, 9, 9], read_limit := 3, allow_throw := true } :
          binary_stream_reader (List Nat)) ([2] ++ [2]) =
      { buffer := ([9, 9, 9, 9] : List Nat).drop ([2] : List Nat).sum,
        total_read := ([2] : List Nat).sum, read_limit := 3,
        state := .read_limit_err, allow_throw := true })) :=
  ⟨⟨by decide, by decide, by decide, by decide, by decide⟩,
    claim_C2 false true 3 [9, 9, 9, 9] [2] 2
      (by decide) (by decide) (by decide) (by decide) (by decide)⟩

/-- C4 counterexample: on `hexi::binary_stream` the two propagation modes
do not consume the same number of bytes.  Requesting 3 bytes from a
two-byte buffer poisons the stream in both modes, but the following
1-byte request, whose bounds check passes, reaches `buffer_.read` in
throwing mode (the macro only re-checks the state under `no_throw`):
the throwing run ends with one byte consumed, the non-throwing run with
none, though the final states agree. -/
theorem claim_C4_counterexample :
    (binary_stream.run_gets true listBufOps
        ({ buffer := [7, 7] } : binary_stream (List Nat)) [3, 1]).state =
      (binary_stream.run_gets false listBufOps
        ({ buffer := [7, 7] } : binary_stream (List Nat)) [3, 1]).state ∧
    (binary_stream.run_gets true listBufOps
      ({ buffer := [7, 7] } : binary_stream (List Nat)) [3, 1]).buffer = [7] ∧
    (binary_stream.run_gets false listBufOps
      ({ buffer := [7, 7] } : binary_stream (List Nat)) [3, 1]).buffer =
        [7, 7] := by
  decide

/-- C4 (amended): for the pmc streams the claim holds — running any
sequence of reader operations from the same initial fields in throwing
and in non-throwing mode (catching raised errors and continuing) yields
the same final buffer, the same `total_read` and the same `state()`, and
the pmc writer's `write` behaves identically in both modes — whereas for
`hexi::binary_stream` the two modes can consume different amounts once
the stream is poisoned. -/
theorem claim_C4_amended {β : Type} (ops : BufOps β) (buf : β) (t L : Nat)
    (st : stream_state) (m1 m2 : Bool)
    (l : List binary_stream_reader.reader_op)
    (wbuf : β) (tw : Nat) (wst : stream_state) (data : List Nat) :
    ((binary_stream_reader.run ops ⟨buf, t, L, st, m1⟩ l).buffer =
      (binary_stream_reader.run ops ⟨buf, t, L, st, m2⟩ l).buffer ∧
    (binary_stream_reader.run ops ⟨buf, t, L, st, m1⟩ l).total_read =
      (binary_stream_reader.run ops ⟨buf, t, L, st, m2⟩ l).total_read ∧
    (binary_stream_reader.run ops ⟨buf, t, L, st, m1⟩ l).state =
      (binary_stream_reader.run ops ⟨buf, t, L, st, m2⟩ l).state) ∧
    ((binary_stream_writer.write ops ⟨wbuf, tw, wst, m1⟩ data).buffer =
      (binary_stream_writer.write ops ⟨wbuf, tw, wst, m2⟩ data).buffer ∧
    (binary_stream_writer.write ops ⟨wbuf, tw, wst, m1⟩ data).total_write =
      (binary_stream_writer.write ops ⟨wbuf, tw, wst, m2⟩ data).total_write ∧
    (binary_stream_writer.write ops ⟨wbuf, tw, wst, m1⟩ data).state =
      (binary_stream_writer.write ops ⟨wbuf, tw, wst, m2⟩ data).state) := by
  have hr : (⟨buf, t, L, st, m1⟩ : binary_stream_reader β) =
      binary_stream_reader.with_mode ⟨buf, t, L, st, m2⟩ m1 := rfl
  have hrun := binary_stream_reader.run_mode ops l
    (⟨buf, t, L, st, m2⟩ : binary_stream_reader β) m1
  have hw : (⟨wbuf, tw, wst, m1⟩ : binary_stream_writer β) =
      binary_stream_writer.with_mode ⟨wbuf, tw, wst, m2⟩ m1 := rfl
  have hwrite := binary_stream_writer.write_mode ops
    (⟨wbuf, tw, wst, m2⟩ : binary_stream_writer β) data m1
  rw [hr, hrun, hw, hwrite]
  exact ⟨⟨rfl, rfl, rfl⟩, rfl, rfl, rfl⟩

/-- C5: for every string `s` (any byte list with `s.length < 2^32`,
covering the empty string, a one-byte string, and strings longer than one
storage block's capacity), writing `s` with fixed-length-prefixed framing
(a 4-byte little-endian count followed by the raw payload) into a fresh
segmented buffer of any positive block capacity, then reading it back
with fixed-length-prefixed framing from the same buffer, yields exactly
`s`, with the reader ending in the `ok` state — in either propagation
mode on either side. -/
theorem claim_C5 (N : Nat) (hN : 0 < N) (s : List Nat)
    (hs : s.length < 2 ^ 32) (mw mr : Bool) :
    (binary_stream_reader.read_fixed_len_string (segBufOps N)
      (⟨(binary_stream_writer.shl_string (segBufOps N)
          (⟨([] : SegBuf N), 0, .ok, mw⟩ : binary_stream_writer (SegBuf N))
          s).buffer, 0, 0, .ok, mr⟩ :
        binary_stream_reader (SegBuf N))).2.1 = some s ∧
    (binary_stream_reader.read_fixed_len_string (segBufOps N)
      (⟨(binary_stream_writer.shl_string (segBufOps N)
          (⟨([] : SegBuf N), 0, .ok, mw⟩ : binary_stream_writer (SegBuf N))
          s).buffer, 0, 0, .ok, mr⟩ :
        binary_stream_reader (SegBuf N))).1.state = .ok := by
  have hw1 := binary_stream_writer.write_ok (segBufOps N)
    (⟨([] : SegBuf N), 0, .ok, mw⟩ : binary_stream_writer (SegBuf N))
    (le4 s.length) rfl
  have hok1 : (binary_stream_writer.write (segBufOps N)
      (⟨([] : SegBuf N), 0, .ok, mw⟩ : binary_stream_writer (SegBuf N))
      (le4 s.length)).state = .ok := by
    rw [hw1]
  have hw2 := binary_stream_writer.write_ok (segBufOps N)
    (binary_stream_writer.write (segBufOps N)
      (⟨([] : SegBuf N), 0, .ok, mw⟩ : binary_stream_writer (SegBuf N))
      (le4 s.length)) s hok1
  have hbuf : (binary_stream_writer.shl_string (segBufOps N)
      (⟨([] : SegBuf N), 0, .ok, mw⟩ : binary_stream_writer (SegBuf N))
      s).buffer =
      SegBuf.write s (SegBuf.write (le4 s.length) ([] : SegBuf N)) := by
    rw [binary_stream_writer.shl_string,
      binary_stream_writer.shl_fixed_len_string, hw2, hw1]
    rfl
  obtain ⟨hwfA, hflA⟩ :=
    SegBuf.write_spec hN (le4 s.length) ([] : SegBuf N) trivial
  obtain ⟨hwfB, hflB⟩ :=
    SegBuf.write_spec hN s (SegBuf.write (le4 s.length) ([] : SegBuf N)) hwfA
  have hflat : SegBuf.flatten
      (SegBuf.write s (SegBuf.write (le4 s.length) ([] : SegBuf N))) =
      le4 s.length ++ s := by
    rw [hflB, hflA]
    rfl
  rw [hbuf]
  exact seg_read_fixed_of_flatten N
    (SegBuf.write s (SegBuf.write (le4 s.length) ([] : SegBuf N)))
    s mr hwfB hflat hs

/-- C5 witness: a five-byte string through a segmented buffer with block
capacity two, forcing the multi-block path on both the write and the
read. -/
theorem claim_C5_witness :
    ((0 : Nat) < 2 ∧ ([1, 2, 3, 4, 5] : List Nat).length < 2 ^ 32) ∧
    ((binary_stream_reader.read_fixed_len_string (segBufOps 2)
      (⟨(binary_stream_writer.shl_string (segBufOps 2)
          (⟨([] : SegBuf 2), 0, .ok, true⟩ : binary_stream_writer (SegBuf 2))
          [1, 2, 3, 4, 5]).buffer, 0, 0, .ok, false⟩ :
        binary_stream_reader (SegBuf 2))).2.1 = some [1, 2, 3, 4, 5] ∧
    (binary_stream_reader.read_fixed_len_string (segBufOps 2)
      (⟨(binary_stream_writer.shl_string (segBufOps 2)
          (⟨([] : SegBuf 2), 0, .ok, true⟩ : binary_stream_writer (SegBuf 2))
          [1, 2, 3, 4, 5]).buffer, 0, 0, .ok, false⟩ :
        binary_stream_reader (SegBuf 2))).1.state = .ok) :=
  ⟨⟨by decide, by decide⟩,
    claim_C5 2 (by decide) [1, 2, 3, 4, 5] (by decide) true false⟩

/-- C6 counterexample: the claim quantifies over every argument value,
but `skip` (like `read`) caps the step at `block_size - read_offset`
rather than at the readable size, so on an empty one-byte block that
satisfies the invariant, `skip(1)` pushes `read_offset` past
`write_offset`, violating `read_offset ≤ write_offset`. -/
theorem claim_C6_counterexample :
    (⟨0, 0, [0]⟩ : intrusive_storage 1).wf ∧
      ¬((⟨0, 0, [0]⟩ : intrusive_storage 1).skip 1 false).1.wf := by
  decide

/-- C6 (amended): every storage-block operation preserves the invariant
`read_offset ≤ write_offset ≤ block_size` provided its argument stays
within the block's own accounting — unconditionally for `write`,
`advance_write` and `clear`, for `read`/`skip` when the length is at most
the readable size, and for `write_seek` when the target offset stays
within `[read_offset, block_size]` — with the readable size equal to
`write_offset - read_offset` and the free space equal to
`block_size - write_offset`.  (`copy` does not mutate the block.) -/
theorem claim_C6_amended (N : Nat) (b : intrusive_storage N)
    (src : List Nat) (len k off1 off2 off3 : Nat) (opt : Bool)
    (h : b.wf) (hN : N < usize) (hlen : len ≤ b.size)
    (hoff1 : off1 ≤ b.free) (hoff2 : off2 ≤ b.size)
    (hoff3l : b.read_offset ≤ off3) (hoff3r : off3 ≤ N) :
    (b.write src).1.wf ∧ (b.read len opt).1.wf ∧ (b.skip len opt).1.wf ∧
    (b.advance_write k).1.wf ∧ b.clear.wf ∧
    (b.write_seek .sk_forward off1).wf ∧
    (b.write_seek .sk_backward off2).wf ∧
    (b.write_seek .sk_absolute off3).wf ∧
    b.size = b.write_offset - b.read_offset ∧
    b.free = N - b.write_offset := by
  obtain ⟨h1, h2, h3⟩ := h
  simp only [intrusive_storage.size, intrusive_storage.free] at hlen hoff1 hoff2
  refine ⟨intrusive_storage.write_wf b src ⟨h1, h2, h3⟩, ?_, ?_, ?_, ?_, ?_, ?_, ?_,
    rfl, rfl⟩
  · simp only [intrusive_storage.read, intrusive_storage.copy,
      intrusive_storage.clear, intrusive_storage.wf]
    split_ifs <;> refine ⟨?_, ?_, ?_⟩ <;> dsimp only <;> omega
  · simp only [intrusive_storage.skip, intrusive_storage.clear,
      intrusive_storage.wf]
    split_ifs <;> refine ⟨?_, ?_, ?_⟩ <;> dsimp only <;> omega
  · simp only [intrusive_storage.advance_write, intrusive_storage.free,
      intrusive_storage.wf]
    split_ifs <;> refine ⟨?_, ?_, ?_⟩ <;> dsimp only <;> omega
  · exact ⟨Nat.le_refl 0, Nat.zero_le _, h3⟩
  · refine ⟨?_, ?_, h3⟩
    · show b.read_offset ≤ uadd b.write_offset off1
      rw [uadd_eq _ _ (by omega)]
      omega
    · show uadd b.write_offset off1 ≤ N
      rw [uadd_eq _ _ (by omega)]
      omega
  · refine ⟨?_, ?_, h3⟩
    · show b.read_offset ≤ usub b.write_offset off2
      rw [usub_eq _ _ (by omega) (by omega)]
      omega
    · show usub b.write_offset off2 ≤ N
      rw [usub_eq _ _ (by omega) (by omega)]
      omega
  · exact ⟨hoff3l, hoff3r, h3⟩

/-- C7 counterexample: when the readable data holds no terminator, both
extraction paths produce an empty result but leave the state `ok` — no
`buffer_underrun`-class failure is signalled, contrary to the claim. -/
theorem claim_C7_counterexample :
    (binary_stream_reader.read_null_term_string listBufOps
      ({ buffer := [1] } : binary_stream_reader (List Nat))).1.state =
        .ok ∧
    (binary_stream_reader.read_null_term_string listBufOps
      ({ buffer := [1] } : binary_stream_reader (List Nat))).2.1 = some [] ∧
    (binary_stream.shr_string listBufOps
      ({ buffer := [1] } : binary_stream (List Nat))).1.state = .ok ∧
    (binary_stream.shr_string listBufOps
      ({ buffer := [1] } : binary_stream (List Nat))).2 = [] := by
  decide

/-- C7 (amended): null-terminated string extraction locates the next
terminator via `find_first_of`; if no terminator exists in the readable
data it produces an empty result and leaves the stream (state, counters
and buffer) unchanged — no error state is set; otherwise it copies
exactly the bytes before the terminator into the result and then skips
the terminator, counting the terminator in `total_read` but not
including it in the result (the pmc reader bounds-enforces
`pos + 1` first; stated here for an unlimited reader). -/
theorem claim_C7_amended (s s2 : binary_stream (List Nat))
    (r r2 : binary_stream_reader (List Nat)) (pre post : List Nat)
    (hs : (0 : Nat) ∉ s.buffer) (hr : (0 : Nat) ∉ r.buffer)
    (hs2 : s2.buffer = pre ++ 0 :: post) (hr2 : r2.buffer = pre ++ 0 :: post)
    (hpre : (0 : Nat) ∉ pre)
    (hr2s : r2.state = .ok) (hr2l : r2.read_limit = 0)
    (hsW : s2.total_read + pre.length + 1 < usize)
    (hrW : r2.total_read + (pre.length + 1) < usize) :
    binary_stream.shr_string listBufOps s = (s, []) ∧
    binary_stream_reader.read_null_term_string listBufOps r = (r, some [], false) ∧
    ((binary_stream.shr_string listBufOps s2).1.buffer = post ∧
      (binary_stream.shr_string listBufOps s2).1.total_read =
        s2.total_read + pre.length + 1 ∧
      (binary_stream.shr_string listBufOps s2).1.state = s2.state ∧
      (binary_stream.shr_string listBufOps s2).2 = pre) ∧
    ((binary_stream_reader.read_null_term_string listBufOps r2).1.buffer = post ∧
      (binary_stream_reader.read_null_term_string listBufOps r2).1.total_read =
        r2.total_read + (pre.length + 1) ∧
      (binary_stream_reader.read_null_term_string listBufOps r2).1.state = .ok ∧
      (binary_stream_reader.read_null_term_string listBufOps r2).2.1 = some pre ∧
      (binary_stream_reader.read_null_term_string listBufOps r2).2.2 = false) := by
  have hfind_s : listBufOps.find_first_of s.buffer 0 = none :=
    find_first_of_list_of_not_mem 0 s.buffer hs
  have hfind_r : listBufOps.find_first_of r.buffer 0 = none :=
    find_first_of_list_of_not_mem 0 r.buffer hr
  have hfind_s2 : listBufOps.find_first_of s2.buffer 0 = some pre.length := by
    rw [show listBufOps.find_first_of s2.buffer 0 =
      find_first_of_list 0 s2.buffer from rfl, hs2]
    exact find_first_of_list_append 0 pre post hpre
  have hfind_r2 : listBufOps.find_first_of r2.buffer 0 = some pre.length := by
    rw [show listBufOps.find_first_of r2.buffer 0 =
      find_first_of_list 0 r2.buffer from rfl, hr2]
    exact find_first_of_list_append 0 pre post hpre
  have htake : (pre ++ 0 :: post).take pre.length = pre := by
    rw [List.take_append_of_le_length (Nat.le_refl _), List.take_length]
  have hdrop1 : ((pre ++ 0 :: post).drop pre.length).drop 1 = post := by
    rw [List.drop_drop, Nat.add_comm pre.length 1, Nat.add_comm 1 pre.length,
      show pre ++ 0 :: post = (pre ++ [0]) ++ post by simp,
      show pre.length + 1 = (pre ++ [0]).length by simp, List.drop_left]
  have hsize : pre.length + 1 ≤ listBufOps.size r2.buffer := by
    rw [show listBufOps.size r2.buffer = r2.buffer.length from rfl, hr2]
    simp
  refine ⟨?_, ?_, ?_, ?_⟩
  · rw [binary_stream.shr_string, hfind_s]
  · rw [binary_stream_reader.read_null_term_string, hfind_r]
  · rw [binary_stream.shr_string, hfind_s2]
    have hbuf : (listBufOps.read s2.buffer pre.length).2 =
        (pre ++ 0 :: post).drop pre.length := by
      rw [show (listBufOps.read s2.buffer pre.length).2 =
        s2.buffer.drop pre.length from rfl, hs2]
    refine ⟨?_, ?_, rfl, ?_⟩
    · show listBufOps.skip (listBufOps.read s2.buffer pre.length).2 1 = post
      rw [hbuf]
      exact hdrop1
    · show uadd (uadd s2.total_read pre.length) 1 = _
      rw [uadd_eq s2.total_read pre.length (by omega),
        uadd_eq (s2.total_read + pre.length) 1 (by omega)]
    · show (listBufOps.read s2.buffer pre.length).1 = pre
      rw [show (listBufOps.read s2.buffer pre.length).1 =
        s2.buffer.take pre.length from rfl, hs2, htake]
  · rw [binary_stream_reader.read_null_term_string]
    simp only [hfind_r2]
    rw [binary_stream_reader.bounds_enforce_pass listBufOps r2 (pre.length + 1)
      hr2s hsize (Or.inl hr2l)]
    refine ⟨?_, ?_, ?_, ?_, ?_⟩
    · show listBufOps.skip (listBufOps.read r2.buffer pre.length).2 1 = post
      rw [show (listBufOps.read r2.buffer pre.length).2 =
        r2.buffer.drop pre.length from rfl, hr2]
      exact hdrop1
    · show uadd r2.total_read (pre.length + 1) = _
      rw [uadd_eq r2.total_read (pre.length + 1) (by omega)]
    · exact hr2s
    · show some (listBufOps.read r2.buffer pre.length).1 = _
      rw [show (listBufOps.read r2.buffer pre.length).1 =
        r2.buffer.take pre.length from rfl, hr2, htake]
    · rfl

/-- C7 witness: extracting from `{104, 0, 7}` (terminator present) and
from `{1}` (no terminator). -/
theorem claim_C7_witness :
    (((0 : Nat) ∉ [(1 : Nat)] ∧ (0 : Nat) ∉ [(1 : Nat)] ∧
      ([104, 0, 7] : List Nat) = [104] ++ 0 :: [7] ∧ (0 : Nat) ∉ [(104 : Nat)]) ∧
    (binary_stream.shr_string listBufOps { buffer := [1] } =
        (({ buffer := [1] } : binary_stream (List Nat)), []) ∧
      binary_stream_reader.read_null_term_string listBufOps { buffer := [1] } =
        (({ buffer := [1] } : binary_stream_reader (List Nat)), some [], false) ∧
      ((binary_stream.shr_string listBufOps
          ({ buffer := [104, 0, 7] } : binary_stream (List Nat))).1.buffer = [7] ∧
        (binary_stream.shr_string listBufOps
          ({ buffer := [104, 0, 7] } : binary_stream (List Nat))).1.total_read = 2 ∧
        (binary_stream.shr_string listBufOps
          ({ buffer := [104, 0, 7] } : binary_stream (List Nat))).2 = [104]) ∧
      ((binary_stream_reader.read_null_term_string listBufOps
          ({ buffer := [104, 0, 7] } : binary_stream_reader (List Nat))).1.buffer = [7] ∧
        (binary_stream_reader.read_null_term_string listBufOps
          ({ buffer := [104, 0, 7] } : binary_stream_reader (List Nat))).1.total_read = 2 ∧
        (binary_stream_reader.read_null_term_string listBufOps
          ({ buffer := [104, 0, 7] } : binary_stream_reader (List Nat))).1.state = .ok ∧
        (binary_stream_reader.read_null_term_string listBufOps
          ({ buffer := [104, 0, 7] } : binary_stream_reader (List Nat))).2.1 =
            some [104]))) :=
  ⟨⟨by decide, by decide, by decide, by decide⟩, by
    have h := claim_C7_amended { buffer := [1] } { buffer := [104, 0, 7] }
      { buffer := [1] } { buffer := [104, 0, 7] } [104] [7]
      (by decide) (by decide) (by decide) (by decide) (by decide)
      (by decide) (by decide) (by decide) (by decide)
    exact ⟨h.1, h.2.1, ⟨h.2.2.1.1, h.2.2.1.2.1, h.2.2.1.2.2.2⟩,
      h.2.2.2.1, h.2.2.2.2.1, h.2.2.2.2.2.1, h.2.2.2.2.2.2.1⟩⟩

/-- C8: the claim says a truncated varint (every present byte has its
continuation bit set) in non-throwing mode terminates normally with
`buffer_underrun` set and never executes the `std::unreachable()` branch.
The code disagrees: the decode does set `buff_limit_err`, the check
`state() != stream_state::ok` after it then observes the error, and the
`std::unreachable()` branch IS executed (undefined behaviour).  This
theorem evaluates the extraction at the failing input, the one-byte
buffer `{0x80}`: the final component records the unreachable branch. -/
theorem claim_C8_bug :
    (binary_stream_reader.read_varint_len_string listBufOps
      ({ buffer := [128], allow_throw := false } :
        binary_stream_reader (List Nat))).2.2.2 = true ∧
    (binary_stream_reader.read_varint_len_string listBufOps
      ({ buffer := [128], allow_throw := false } :
        binary_stream_reader (List Nat))).1.state = .buff_limit_err ∧
    (binary_stream_reader.read_varint_len_string listBufOps
      ({ buffer := [128], allow_throw := false } :
        binary_stream_reader (List Nat))).2.2.1 = false := by
  decide

/-- C9 counterexample: `read_max()` with a configured `read_limit` of 10
over a three-byte buffer returns the full remaining budget 10, not the
minimum of the buffer's readable size and the budget (3). -/
theorem claim_C9_counterexample :
    binary_stream_reader.read_max listBufOps
      ({ buffer := [1, 2, 3], read_limit := 10 } :
        binary_stream_reader (List Nat)) = 10 ∧
    min (({ buffer := [1, 2, 3], read_limit := 10 } :
        binary_stream_reader (List Nat))).buffer.length
      (10 - (({ buffer := [1, 2, 3], read_limit := 10 } :
        binary_stream_reader (List Nat))).total_read) = 3 := by
  decide

/-- C9 (amended): `read_max()` returns the remaining read-limit budget
`read_limit - total_read` whenever a non-zero `read_limit` is configured
— even when that exceeds the buffer's readable size — and the buffer's
readable size only when no limit is configured. -/
theorem claim_C9_amended (r : binary_stream_reader (List Nat))
    (h1 : r.total_read ≤ r.read_limit) (h2 : r.read_limit < usize) :
    (r.read_limit ≠ 0 →
      binary_stream_reader.read_max listBufOps r = r.read_limit - r.total_read) ∧
    (r.read_limit = 0 →
      binary_stream_reader.read_max listBufOps r = r.buffer.length) := by
  constructor
  · intro h
    rw [binary_stream_reader.read_max, if_pos h, usub_eq _ _ h1 h2]
  · intro h
    rw [binary_stream_reader.read_max, if_neg (by simp [h])]
    rfl

/-- C9 witness: a reader with limit 10 and 4 bytes already read. -/
theorem claim_C9_witness :
    ((({ buffer := [1, 2, 3], total_read := 4, read_limit := 10 } :
        binary_stream_reader (List Nat))).total_read ≤ 10 ∧ 10 < usize) ∧
    (((10 : Nat) ≠ 0 →
      binary_stream_reader.read_max listBufOps
        ({ buffer := [1, 2, 3], total_read := 4, read_limit := 10 } :
          binary_stream_reader (List Nat)) = 10 - 4) ∧
    ((10 : Nat) = 0 →
      binary_stream_reader.read_max listBufOps
        ({ buffer := [1, 2, 3], total_read := 4, read_limit := 10 } :
          binary_stream_reader (List Nat)) = 3)) :=
  ⟨⟨by decide, by decide⟩,
    claim_C9_amended { buffer := [1, 2, 3], total_read := 4, read_limit := 10 }
      (by decide) (by decide)⟩

/-- C10: the plain insertion operator of `hexi::binary_stream` writes the
payload followed by one null terminator (`size() + 1` bytes, no length
prefix) and bumps `total_write` by `size() + 1`, whereas the plain
insertion operator of the pmc `binary_stream_writer` writes a 4-byte
little-endian length followed by the payload; the two default wire
encodings of the same string are always different byte sequences. -/
theorem claim_C10 (s : binary_stream (List Nat))
    (w : binary_stream_writer (List Nat)) (str : List Nat)
    (hs : s.total_write + (str.length + 1) < usize)
    (hw : w.state = .ok) (hw2 : w.total_write + 4 + str.length < usize) :
    (binary_stream.shl_string listBufOps s str).buffer =
      s.buffer ++ (str ++ [0]) ∧
    (binary_stream.shl_string listBufOps s str).total_write =
      s.total_write + (str.length + 1) ∧
    (binary_stream_writer.shl_string listBufOps w str).buffer =
      w.buffer ++ le4 str.length ++ str ∧
    (binary_stream_writer.shl_string listBufOps w str).total_write =
      w.total_write + 4 + str.length ∧
    str ++ [0] ≠ le4 str.length ++ str := by
  have hw1 := binary_stream_writer.write_ok listBufOps w (le4 str.length) hw
  have hok2 : (binary_stream_writer.write listBufOps w (le4 str.length)).state =
      .ok := by
    rw [hw1]
    exact hw
  have hw2' := binary_stream_writer.write_ok listBufOps
    (binary_stream_writer.write listBufOps w (le4 str.length)) str hok2
  refine ⟨rfl, ?_, ?_, ?_, ?_⟩
  · show uadd s.total_write (str.length + 1) = _
    rw [uadd_eq s.total_write (str.length + 1) (by omega)]
  · rw [binary_stream_writer.shl_string,
      binary_stream_writer.shl_fixed_len_string, hw2', hw1]
    rfl
  · rw [binary_stream_writer.shl_string,
      binary_stream_writer.shl_fixed_len_string, hw2', hw1]
    show uadd (uadd w.total_write 4) str.length = _
    rw [uadd_eq w.total_write 4 (by omega),
      uadd_eq (w.total_write + 4) str.length (by omega)]
  · intro hcontra
    have hlen := congrArg List.length hcontra
    rw [List.length_append, List.length_append, le4_length] at hlen
    simp at hlen
    omega

/-- C10 witness: the two encodings of the two-byte string `"hi"`. -/
theorem claim_C10_witness :
    ((({ buffer := [] } : binary_stream (List Nat))).total_write +
        (([104, 105] : List Nat).length + 1) < usize ∧
      (({ buffer := [] } : binary_stream_writer (List Nat))).state = .ok ∧
      (({ buffer := [] } : binary_stream_writer (List Nat))).total_write + 4 +
        ([104, 105] : List Nat).length < usize) ∧
    ((binary_stream.shl_string listBufOps { buffer := [] } [104, 105]).buffer =
      [] ++ ([104, 105] ++ [0]) ∧
    (binary_stream.shl_string listBufOps { buffer := [] } [104, 105]).total_write =
      0 + (([104, 105] : List Nat).length + 1) ∧
    (binary_stream_writer.shl_string listBufOps { buffer := [] } [104, 105]).buffer =
      [] ++ le4 ([104, 105] : List Nat).length ++ [104, 105] ∧
    (binary_stream_writer.shl_string listBufOps { buffer := [] } [104, 105]).total_write =
      0 + 4 + ([104, 105] : List Nat).length ∧
    ([104, 105] : List Nat) ++ [0] ≠ le4 ([104, 105] : List Nat).length ++ [104, 105]) :=
  ⟨⟨by decide, by decide, by decide⟩,
    claim_C10 { buffer := [] } { buffer := [] } [104, 105]
      (by decide) (by decide) (by decide)⟩

/-- C3 counterexample: a poisoned `hexi::binary_stream` is not a no-op.
With `state = user_defined_err`, a non-throwing bounded read of one byte
from a one-byte buffer still advances `total_read` (the bounds check runs
and counts before the poisoned-state early return), and an insertion
moves bytes into the buffer unconditionally. -/
theorem claim_C3_counterexample :
    (({ buffer := [5], state := .user_defined_err } :
        binary_stream (List Nat))).state ≠ .ok ∧
    (binary_stream.get_n false listBufOps
      ({ buffer := [5], state := .user_defined_err } :
        binary_stream (List Nat)) 1).1.total_read = 1 ∧
    (binary_stream.put_bytes listBufOps
      ({ buffer := [5], state := .user_defined_err } :
        binary_stream (List Nat)) [9]).buffer = [5, 9] ∧
    (binary_stream.put_bytes listBufOps
      ({ buffer := [5], state := .user_defined_err } :
        binary_stream (List Nat)) [9]).total_write = 1 := by
  decide

/-- C3 (amended): for the pmc streams the claim holds — once the state is
non-ok, every bounded reader operation returns its default value and
leaves the stream (buffer, counters, state) untouched, the writer's
`write` is a no-op, and `clear_error_state` restores `ok` — whereas for
`hexi::binary_stream` poisoning does not stop writes at all and a
non-throwing in-bounds read still advances `total_read`. -/
theorem claim_C3_amended {β : Type} (ops : BufOps β)
    (r : binary_stream_reader β) (w : binary_stream_writer β)
    (n : Nat) (data : List Nat) (hr : r.state ≠ .ok) (hw : w.state ≠ .ok) :
    binary_stream_reader.get_n ops r n = (r, List.replicate n 0, false) ∧
    binary_stream_reader.skip ops r n = (r, false) ∧
    (binary_stream_reader.read_fixed_len_string ops r).1 = r ∧
    (binary_stream_reader.read_fixed_len_string ops r).2.1 = none ∧
    (binary_stream_reader.read_fixed_len_string ops r).2.2 = false ∧
    (binary_stream_reader.read_null_term_string ops r).1 = r ∧
    (binary_stream_reader.read_null_term_string ops r).2.2 = false ∧
    binary_stream_writer.write ops w data = w ∧
    (binary_stream_reader.clear_error_state r).state = .ok := by
  have hbe : ∀ k, binary_stream_reader.bounds_enforce r ops k = (r, false, false) :=
    fun k => binary_stream_reader.bounds_enforce_poisoned ops r k hr
  have hget : ∀ k, binary_stream_reader.get_n ops r k =
      (r, List.replicate k 0, false) := by
    intro k
    rw [binary_stream_reader.get_n, hbe k]
    rfl
  have hfl : binary_stream_reader.read_fixed_len_string ops r = (r, none, false) := by
    rw [binary_stream_reader.read_fixed_len_string,
      binary_stream_reader.get_u32le, hget 4]
    simp [hr]
  refine ⟨hget n, ?_, ?_, ?_, ?_, ?_, ?_, ?_, rfl⟩
  · rw [binary_stream_reader.skip, hbe n]
    rfl
  · rw [hfl]
  · rw [hfl]
  · rw [hfl]
  · rw [binary_stream_reader.read_null_term_string]
    cases hfind : ops.find_first_of r.buffer 0 with
    | none => rfl
    | some pos =>
      simp only []
      rw [hbe (pos + 1)]
      rfl
  · rw [binary_stream_reader.read_null_term_string]
    cases hfind : ops.find_first_of r.buffer 0 with
    | none => rfl
    | some pos =>
      simp only []
      rw [hbe (pos + 1)]
      rfl
  · rw [binary_stream_writer.write, if_neg hw]

/-- C3 witness: a poisoned pmc reader and writer over a flat buffer. -/
theorem claim_C3_witness :
    ((({ buffer := [5], state := .user_defined_err } :
        binary_stream_reader (List Nat))).state ≠ .ok ∧
      (({ buffer := [5], state := .buff_limit_err } :
        binary_stream_writer (List Nat))).state ≠ .ok) ∧
    (binary_stream_reader.get_n listBufOps
        ({ buffer := [5], state := .user_defined_err } :
          binary_stream_reader (List Nat)) 2 =
      (({ buffer := [5], state := .user_defined_err } :
          binary_stream_reader (List Nat)), List.replicate 2 0, false) ∧
    binary_stream_reader.skip listBufOps
        ({ buffer := [5], state := .user_defined_err } :
          binary_stream_reader (List Nat)) 2 =
      (({ buffer := [5], state := .user_defined_err } :
          binary_stream_reader (List Nat)), false) ∧
    (binary_stream_reader.read_fixed_len_string listBufOps
        ({ buffer := [5], state := .user_defined_err } :
          binary_stream_reader (List Nat))).1 =
      ({ buffer := [5], state := .user_defined_err } :
          binary_stream_reader (List Nat)) ∧
    (binary_stream_reader.read_fixed_len_string listBufOps
        ({ buffer := [5], state := .user_defined_err } :
          binary_stream_reader (List Nat))).2.1 = none ∧
    (binary_stream_reader.read_fixed_len_string listBufOps
        ({ buffer := [5], state := .user_defined_err } :
          binary_stream_reader (List Nat))).2.2 = false ∧
    (binary_stream_reader.read_null_term_string listBufOps
        ({ buffer := [5], state := .user_defined_err } :
          binary_stream_reader (List Nat))).1 =
      ({ buffer := [5], state := .user_defined_err } :
          binary_stream_reader (List Nat)) ∧
    (binary_stream_reader.read_null_term_string listBufOps
        ({ buffer := [5], state := .user_defined_err } :
          binary_stream_reader (List Nat))).2.2 = false ∧
    binary_stream_writer.write listBufOps
        ({ buffer := [5], state := .buff_limit_err } :
          binary_stream_writer (List Nat)) [9] =
      ({ buffer := [5], state := .buff_limit_err } :
          binary_stream_writer (List Nat)) ∧
    (binary_stream_reader.clear_error_state
        ({ buffer := [5], state := .user_defined_err } :
          binary_stream_reader (List Nat))).state = .ok) :=
  ⟨⟨by decide, by decide⟩,
    claim_C3_amended listBufOps
      { buffer := [5], state := .user_defined_err }
      { buffer := [5], state := .buff_limit_err } 2 [9]
      (by decide) (by decide)⟩

/-- C6 witness: a concrete block with every operation applied at
in-accounting arguments. -/
theorem claim_C6_witness :
    ((⟨1, 2, [7, 8]⟩ : intrusive_storage 2).wf ∧ 2 < usize ∧
      1 ≤ (⟨1, 2, [7, 8]⟩ : intrusive_storage 2).size ∧
      0 ≤ (⟨1, 2, [7, 8]⟩ : intrusive_storage 2).free ∧
      1 ≤ (⟨1, 2, [7, 8]⟩ : intrusive_storage 2).size ∧
      (⟨1, 2, [7, 8]⟩ : intrusive_storage 2).read_offset ≤ 2 ∧ 2 ≤ 2) ∧
    (((⟨1, 2, [7, 8]⟩ : intrusive_storage 2).write [9]).1.wf ∧
      ((⟨1, 2, [7, 8]⟩ : intrusive_storage 2).read 1 true).1.wf ∧
      ((⟨1, 2, [7, 8]⟩ : intrusive_storage 2).skip 1 true).1.wf ∧
      ((⟨1, 2, [7, 8]⟩ : intrusive_storage 2).advance_write 5).1.wf ∧
      (⟨1, 2, [7, 8]⟩ : intrusive_storage 2).clear.wf ∧
      ((⟨1, 2, [7, 8]⟩ : intrusive_storage 2).write_seek .sk_forward 0).wf ∧
      ((⟨1, 2, [7, 8]⟩ : intrusive_storage 2).write_seek .sk_backward 1).wf ∧
      ((⟨1, 2, [7, 8]⟩ : intrusive_storage 2).write_seek .sk_absolute 2).wf ∧
      (⟨1, 2, [7, 8]⟩ : intrusive_storage 2).size =
        (⟨1, 2, [7, 8]⟩ : intrusive_storage 2).write_offset -
          (⟨1, 2, [7, 8]⟩ : intrusive_storage 2).read_offset ∧
      (⟨1, 2, [7, 8]⟩ : intrusive_storage 2).free =
        2 - (⟨1, 2, [7, 8]⟩ : intrusive_storage 2).write_offset) :=
  ⟨⟨by decide, by decide, by decide, by decide, by decide, by decide, by decide⟩,
    claim_C6_amended 2 ⟨1, 2, [7, 8]⟩ [9] 1 5 0 1 2 true
      (by decide) (by decide) (by decide) (by decide) (by decide)
      (by decide) (by decide)⟩

end Hexi
